import Mathlib

/-!
Verification development for the Apache Jira scraper repository.

The Python sources are shallowly embedded:
- JSON values (Python dicts/lists/strings/numbers as they appear in API
  payloads) become the inductive type JVal; Python dict/iteration/truthiness
  semantics become explicit helper functions; code that can raise becomes
  Except-valued.
- src/src/jira_client.py's JiraClient._make_request retry loop becomes a
  recursive function over an abstract stream of per-attempt outcomes,
  returning the list of sleep durations together with the optional payload.
- src/src/data_transformer.py's DataTransformer becomes pure functions over
  JVal.
- src/src/state_manager.py's StateManager becomes explicit state passing; the
  identity of Python list/set objects, which matters for the copy-vs-alias
  claims, is modelled with a small explicit heap of string-list cells.
- src/main.py's reset/scrape control flow becomes a function from parsed
  arguments to the list of performed top-level actions.
-/

/-- A JSON-like Python value: None, bool, int, str, list, dict.
Dicts are modelled as association lists in insertion order. -/
inductive JVal where
  | null
  | bool (b : Bool)
  | num (n : Int)
  | str (s : String)
  | arr (xs : List JVal)
  | obj (kvs : List (String × JVal))
deriving Repr

mutual

/-- Structural equality on JVal, modelling Python == on JSON-shaped data. -/
def JVal.beq : JVal → JVal → Bool
  | .null, .null => true
  | .bool a, .bool b => a = b
  | .num a, .num b => a = b
  | .str a, .str b => a = b
  | .arr xs, .arr ys => JVal.beqList xs ys
  | .obj xs, .obj ys => JVal.beqObj xs ys
  | _, _ => false

def JVal.beqList : List JVal → List JVal → Bool
  | [], [] => true
  | x :: xs, y :: ys => JVal.beq x y && JVal.beqList xs ys
  | _, _ => false

def JVal.beqObj : List (String × JVal) → List (String × JVal) → Bool
  | [], [] => true
  | (k, v) :: xs, (k', v') :: ys => k = k' && JVal.beq v v' && JVal.beqObj xs ys
  | _, _ => false

end

instance : BEq JVal := ⟨JVal.beq⟩

/-- Python truthiness for JSON-shaped values: None, False, 0, empty string,
empty list and empty dict are falsy. -/
def JVal.truthy : JVal → Bool
  | .null => false
  | .bool b => b
  | .num n => n != 0
  | .str s => !s.isEmpty
  | .arr xs => !xs.isEmpty
  | .obj kvs => !kvs.isEmpty

mutual

/-- Python str() on a JSON-shaped value. Containers render their elements
with repr (strings quoted); escape sequences inside reprs are not modelled. -/
def JVal.pyStr : JVal → String
  | .null => "None"
  | .bool b => if b then "True" else "False"
  | .num n => toString n
  | .str s => s
  | .arr xs => "[" ++ String.intercalate ", " (JVal.pyReprList xs) ++ "]"
  | .obj kvs => "\x7b" ++ String.intercalate ", " (JVal.pyReprObj kvs) ++ "\x7d"

/-- Python repr() on a JSON-shaped value: like str() except strings quote. -/
def JVal.pyRepr : JVal → String
  | .str s => "'" ++ s ++ "'"
  | v => JVal.pyStr v

def JVal.pyReprList : List JVal → List String
  | [] => []
  | x :: xs => JVal.pyRepr x :: JVal.pyReprList xs

def JVal.pyReprObj : List (String × JVal) → List String
  | [] => []
  | (k, v) :: kvs => ("'" ++ k ++ "': " ++ JVal.pyRepr v) :: JVal.pyReprObj kvs

end

/-- First binding of a key in a dict (association list). -/
def JVal.lookup (kvs : List (String × JVal)) (k : String) : Option JVal :=
  (kvs.find? (fun kv => kv.1 = k)).map (fun kv => kv.2)

/-- Python dict.get(k, d): raises (AttributeError) when the receiver is not
a dict. The error carries no information, mirroring a caught exception. -/
def pyGetD (v : JVal) (k : String) (d : JVal) : Except Unit JVal :=
  match v with
  | .obj kvs => .ok ((JVal.lookup kvs k).getD d)
  | _ => .error ()

/-- Python v[k] subscription for a string key: KeyError when missing,
TypeError when the receiver is not a dict. -/
def pyIndex (v : JVal) (k : String) : Except Unit JVal :=
  match v with
  | .obj kvs =>
    match JVal.lookup kvs k with
    | some x => .ok x
    | none => .error ()
  | _ => .error ()

/-- Python iteration: lists yield elements, strings yield one-character
strings, dicts yield their keys; other values raise TypeError. -/
def pyIter : JVal → Except Unit (List JVal)
  | .arr xs => .ok xs
  | .str s => .ok (s.toList.map (fun c => .str (String.mk [c])))
  | .obj kvs => .ok (kvs.map (fun kv => .str kv.1))
  | _ => .error ()

/-- Python membership test (key in v) for a string key: dict key membership,
substring test on strings (the call sites only use a non-empty key),
element equality on lists; other receivers raise TypeError. -/
def pyContains (v : JVal) (k : String) : Except Unit Bool :=
  match v with
  | .obj kvs => .ok (kvs.any (fun kv => kv.1 = k))
  | .str s => .ok ((s.splitOn k).length > 1)
  | .arr xs => .ok (xs.any (fun x => x == JVal.str k))
  | _ => .error ()

/-- The whitespace characters of Python str.strip() and of the regex class
matched by a backslash-s pattern (ASCII range). -/
def isPySpace (c : Char) : Bool :=
  c = ' ' || c = '\t' || c = '\n' || c = '\r' || c = '\x0b' || c = '\x0c'

/-- Python str.strip(): removes leading and trailing whitespace. -/
def pyStrip (s : String) : String :=
  String.mk (((s.toList.dropWhile isPySpace).reverse.dropWhile isPySpace).reverse)

namespace JiraClient

/-- Constructor parameters of JiraClient that the retry loop consults
(src/src/jira_client.py lines 20-39). Delays are exact rationals. -/
structure Config where
  max_retries : Nat
  retry_delay : ℚ
  rate_limit_delay : ℚ
deriving DecidableEq, Repr

/-- The defaults of JiraClient.__init__. -/
def defaultConfig : Config := { max_retries := 5, retry_delay := 1, rate_limit_delay := 1 }

/-- Observable outcome of one HTTP attempt, as branched on by _make_request:
a response with a status code, an optional parsed Retry-After header and an
optional parsed JSON body (none models both an unparsable and a null body,
which the code treats identically), or one of the exception classes the
code catches. -/
inductive Outcome where
  | response (status : Nat) (retryAfter : Option ℚ) (body : Option JVal)
  | timeout
  | connectionError
  | otherException
deriving Repr

/-- The body of JiraClient._make_request (src/src/jira_client.py lines
66-149), embedded over an abstract stream of per-attempt outcomes:
the n-th loop iteration issues the n-th request and observes responses n.
The fuel argument counts the remaining iterations of the Python loop
(for attempt in range(max_retries)); attempt is the current loop index.
Returns the list of sleep durations performed, in order, together with the
final result (none models returning None). -/
def makeRequestLoop (cfg : Config) (responses : Nat → Outcome) :
    Nat → Nat → List ℚ × Option JVal
  | _, 0 => ([], none)
  | attempt, fuel + 1 =>
    match responses attempt with
    | .response status retryAfter body =>
      if status = 429 then
        -- rate limited: sleep Retry-After (fallback rate_limit_delay), continue
        let wait := retryAfter.getD cfg.rate_limit_delay
        let r := makeRequestLoop cfg responses (attempt + 1) fuel
        (wait :: r.1, r.2)
      else if 500 ≤ status then
        -- server error: exponential backoff, retry unless attempts exhausted
        let wait := cfg.retry_delay * 2 ^ attempt
        if attempt < cfg.max_retries - 1 then
          let r := makeRequestLoop cfg responses (attempt + 1) fuel
          (wait :: r.1, r.2)
        else ([], none)
      else if 400 ≤ status && status < 500 then
        -- client error: no retry
        ([], none)
      else if status = 200 then
        -- success path: parse failure and null body both return None
        match body with
        | some data => ([], some data)
        | none => ([], none)
      else
        -- unexpected status code
        ([], none)
    | .timeout =>
      let wait := cfg.retry_delay * 2 ^ attempt
      if attempt < cfg.max_retries - 1 then
        let r := makeRequestLoop cfg responses (attempt + 1) fuel
        (wait :: r.1, r.2)
      else ([], none)
    | .connectionError =>
      let wait := cfg.retry_delay * 2 ^ attempt
      if attempt < cfg.max_retries - 1 then
        let r := makeRequestLoop cfg responses (attempt + 1) fuel
        (wait :: r.1, r.2)
      else ([], none)
    | .otherException => ([], none)

/-- JiraClient._make_request: run the loop from attempt 0 with
max_retries iterations available. -/
def makeRequest (cfg : Config) (responses : Nat → Outcome) : List ℚ × Option JVal :=
  makeRequestLoop cfg responses 0 cfg.max_retries

end JiraClient

namespace DataTransformer

/-- One pass of the tag-removal regex substitution over the rendered HTML
(re.sub of the pattern matching a literal less-than sign, one or more
non-greater-than characters, then a greater-than sign, replaced by nothing),
rendered as a left-to-right scanner. The first argument is none while
scanning plain text; it is some buf while inside a candidate tag opened by a
less-than sign, buf holding the characters read since then in reverse.
A candidate that reaches a greater-than sign with a non-empty buffer is a
match and is dropped; a candidate that ends at a greater-than sign with an
empty buffer, or at the end of input, matched nothing and is emitted
literally. -/
def stripTagsGo : Option (List Char) → List Char → List Char
  | none, [] => []
  | none, c :: rest =>
    if c = '<' then stripTagsGo (some []) rest
    else c :: stripTagsGo none rest
  | some buf, [] => '<' :: buf.reverse
  | some buf, c :: rest =>
    if c = '>' then
      if buf.isEmpty then '<' :: '>' :: stripTagsGo none rest
      else stripTagsGo none rest
    else stripTagsGo (some (c :: buf)) rest

/-- Remove HTML tags as re.sub with the non-nested tag pattern does. -/
def stripTags (cs : List Char) : List Char :=
  stripTagsGo none cs

/-- Collapse every maximal run of whitespace into a single space, as the
re.sub of one-or-more whitespace characters with a single space. The flag
records whether the previous character was part of a whitespace run. -/
def collapseWsGo : Bool → List Char → List Char
  | _, [] => []
  | prevSpace, c :: rest =>
    if isPySpace c then
      if prevSpace then collapseWsGo true rest
      else ' ' :: collapseWsGo true rest
    else c :: collapseWsGo false rest

def collapseWs (cs : List Char) : List Char :=
  collapseWsGo false cs

/-- DataTransformer.extract_text_content (src/src/data_transformer.py lines
17-63). A None field yields the empty string; a string is stripped; a dict
prefers a rendered sub-field (tags removed, whitespace collapsed, stripped),
then name, then displayName, then value (each passed through str()), then
joins all string-valued entries; anything else is str()-ed and stripped.
A rendered sub-field that is not a string makes re.sub raise. -/
def extract_text_content (field : JVal) : Except Unit String :=
  match field with
  | .null => .ok ""
  | .str s => .ok (pyStrip s)
  | .obj kvs =>
    match JVal.lookup kvs "rendered" with
    | some (.str text) =>
      .ok (pyStrip (String.mk (collapseWs (stripTags text.toList))))
    | some _ => .error ()
    | none =>
      match JVal.lookup kvs "name" with
      | some v => .ok v.pyStr
      | none =>
        match JVal.lookup kvs "displayName" with
        | some v => .ok v.pyStr
        | none =>
          match JVal.lookup kvs "value" with
          | some v => .ok v.pyStr
          | none =>
            .ok (pyStrip (String.intercalate " " (kvs.filterMap (fun kv =>
              match kv.2 with
              | .str s => some s
              | _ => none))))
  | v => .ok (pyStrip v.pyStr)

/-- Calendar day-and-month validity used by the ISO timestamp parser. -/
def isLeap (y : Nat) : Bool :=
  y % 4 = 0 && (y % 100 != 0 || y % 400 = 0)

def daysInMonth (y m : Nat) : Nat :=
  if m = 2 then (if isLeap y then 29 else 28)
  else if m = 4 || m = 6 || m = 9 || m = 11 then 30
  else 31

/-- The datetime fields the formatter prints. -/
structure DT where
  year : Nat
  month : Nat
  day : Nat
  hour : Nat
  minute : Nat
  second : Nat
deriving DecidableEq, Repr

/-- Read exactly n decimal digits, accumulating their value. -/
def expectDigitsAux : Nat → Nat → List Char → Option (Nat × List Char)
  | acc, 0, cs => some (acc, cs)
  | _, _ + 1, [] => none
  | acc, n + 1, c :: cs =>
    if c.isDigit then expectDigitsAux (acc * 10 + (c.toNat - 48)) n cs else none

def expectChar (c : Char) : List Char → Option (List Char)
  | [] => none
  | c' :: cs => if c' = c then some cs else none

/-- Optional fractional-second part: a dot followed by one to six digits. -/
def parseFrac (cs : List Char) : Option (List Char) :=
  match cs with
  | '.' :: rest =>
    let ds := rest.takeWhile Char.isDigit
    if 1 ≤ ds.length ∧ ds.length ≤ 6 then some (rest.drop ds.length) else none
  | _ => some cs

/-- Optional trailing UTC-offset part: sign, two digits, colon, two digits,
then end of input; or directly end of input. -/
def parseOffset (cs : List Char) : Option Unit :=
  match cs with
  | [] => some ()
  | c :: rest =>
    if c = '+' ∨ c = '-' then
      match expectDigitsAux 0 2 rest with
      | some (oh, r1) =>
        match r1 with
        | ':' :: r2 =>
          match expectDigitsAux 0 2 r2 with
          | some (om, r3) =>
            if oh < 24 ∧ om < 60 ∧ r3 = [] then some () else none
          | none => none
        | _ => none
      | none => none
    else none

/-- Model of datetime.fromisoformat: a four-digit year, dashes, two-digit
month and day (range checked against the calendar), optionally followed by a
single separator character and a time part with two-digit hour and minute,
optional two-digit seconds, optional fractional seconds and optional offset.
Returns the parsed fields, or none when the string is rejected. -/
def parseIsoDateTime (s : String) : Option DT := do
  let cs := s.toList
  let (y, r1) ← expectDigitsAux 0 4 cs
  let r2 ← expectChar '-' r1
  let (mo, r3) ← expectDigitsAux 0 2 r2
  let r4 ← expectChar '-' r3
  let (d, r5) ← expectDigitsAux 0 2 r4
  if 1 ≤ y ∧ 1 ≤ mo ∧ mo ≤ 12 ∧ 1 ≤ d ∧ d ≤ daysInMonth y mo then
    match r5 with
    | [] => some ⟨y, mo, d, 0, 0, 0⟩
    | _ :: r6 => do
      let (hh, r7) ← expectDigitsAux 0 2 r6
      let r8 ← expectChar ':' r7
      let (mi, r9) ← expectDigitsAux 0 2 r8
      let (ss, r10) ←
        match r9 with
        | ':' :: rr => do
          let (ss, r') ← expectDigitsAux 0 2 rr
          pure (ss, r')
        | _ => pure (0, r9)
      let r11 ← parseFrac r10
      let () ← parseOffset r11
      if hh ≤ 23 ∧ mi ≤ 59 ∧ ss ≤ 59 then some ⟨y, mo, d, hh, mi, ss⟩ else none
  else none

def pad2 (n : Nat) : String :=
  if n < 10 then "0" ++ toString n else toString n

def pad4 (n : Nat) : String :=
  if n < 10 then "000" ++ toString n
  else if n < 100 then "00" ++ toString n
  else if n < 1000 then "0" ++ toString n
  else toString n

/-- The strftime format string used by the source, on the parsed fields. -/
def strftimeUTC (t : DT) : String :=
  pad4 t.year ++ "-" ++ pad2 t.month ++ "-" ++ pad2 t.day ++ " " ++
    pad2 t.hour ++ ":" ++ pad2 t.minute ++ ":" ++ pad2 t.second ++ " UTC"

/-- DataTransformer.format_timestamp (src/src/data_transformer.py lines
65-74). Falsy input returns None; a string has every Z replaced by +00:00
and is parsed as ISO, reformatted on success and returned unchanged on
failure; a non-string truthy value makes str.replace raise, and the bare
except returns the original value. -/
def format_timestamp (timestamp : JVal) : JVal :=
  if !timestamp.truthy then .null
  else
    match timestamp with
    | .str s =>
      match parseIsoDateTime (s.replace "Z" "+00:00") with
      | some t => .str (strftimeUTC t)
      | none => .str s
    | v => v

/-- DataTransformer.extract_labels (lines 76-80): the labels field when it
is a list, else the empty list. -/
def extract_labels (issue : JVal) : Except Unit (List JVal) := do
  let fields ← pyGetD issue "fields" (.obj [])
  let labels ← pyGetD fields "labels" (.arr [])
  match labels with
  | .arr xs => pure xs
  | _ => pure []

/-- DataTransformer.extract_components (lines 82-86): iterate the
components field, keep the dict entries, and take each one's name
sub-field with an empty-string default. -/
def extract_components (issue : JVal) : Except Unit (List JVal) := do
  let fields ← pyGetD issue "fields" (.obj [])
  let components ← pyGetD fields "components" (.arr [])
  let items ← pyIter components
  pure (items.filterMap (fun comp =>
    match comp with
    | .obj kvs => some ((JVal.lookup kvs "name").getD (.str ""))
    | _ => none))

/-- The comment dictionary built by extract_comments for one raw comment. -/
structure CommentRec where
  author : String
  body : String
  created : JVal
  updated : JVal
deriving Repr

/-- Build one comment record, in the source's evaluation order: author and
body go through extract_text_content, created and updated through
format_timestamp. -/
def mkCommentRec (comment : JVal) : Except Unit CommentRec := do
  let a ← pyGetD comment "author" .null
  let author ← extract_text_content a
  let b ← pyGetD comment "body" .null
  let body ← extract_text_content b
  let c ← pyGetD comment "created" .null
  let u ← pyGetD comment "updated" .null
  pure { author := author, body := body,
         created := format_timestamp c, updated := format_timestamp u }

/-- The embedded-comment loop of extract_comments (lines 113-128): for each
raw embedded comment, extract its body text; when a comment with that body
is already in the accumulated list, drop it, otherwise append its record. -/
def dedupAppend (acc : List CommentRec) : List JVal → Except Unit (List CommentRec)
  | [] => .ok acc
  | comment :: rest => do
    let b ← pyGetD comment "body" .null
    let bt ← extract_text_content b
    if acc.any (fun c => c.body = bt) then
      dedupAppend acc rest
    else do
      let r ← mkCommentRec comment
      dedupAppend (acc ++ [r]) rest

/-- The dedicated-payload loop of extract_comments (lines 103-111): when
the payload is truthy, iterate its comments value and build a record for
each element in order. -/
def commentsFromPayload (comments_data : Option JVal) :
    Except Unit (List CommentRec) :=
  match comments_data with
  | some cd =>
    if cd.truthy then do
      let commentList ← pyGetD cd "comments" (.arr [])
      let items ← pyIter commentList
      List.mapM' mkCommentRec items
    else pure []
  | none => pure []

/-- DataTransformer.extract_comments (src/src/data_transformer.py lines
88-130): first the dedicated comments payload (when truthy), then the
comment field embedded in the issue, deduplicated against the accumulated
list by exact body text. -/
def extract_comments (issue : JVal) (comments_data : Option JVal) :
    Except Unit (List CommentRec) := do
  let fromPayload ← commentsFromPayload comments_data
  let fields ← pyGetD issue "fields" (.obj [])
  let comment_field ← pyGetD fields "comment" (.obj [])
  let hasComments ←
    if comment_field.truthy then pyContains comment_field "comments" else pure false
  if hasComments then do
    let embedded ← pyIndex comment_field "comments"
    let items ← pyIter embedded
    dedupAppend fromPayload items
  else
    pure fromPayload

end DataTransformer

namespace DataTransformer

/-- One derived task of the instruction kind. -/
structure TaskRec where
  instruction : String
  input : String
  output : String
deriving DecidableEq, Repr

/-- The question-answering derived task. -/
structure QARec where
  question : String
  context : String
  answer : String
deriving DecidableEq, Repr

/-- The three derived tasks attached to a transformed issue. -/
structure DerivedTasks where
  summarization : TaskRec
  classification : TaskRec
  qa_generation : QARec
deriving DecidableEq, Repr

/-- The metadata sub-record of a transformed issue. The scraped_at entry is
a wall-clock capture timestamp and stays outside the pure model. -/
structure Metadata where
  raw_issue_key : JVal
  source : String
deriving Repr

/-- The fixed-key dictionary built by transform_issue before the derived
tasks are attached (src/src/data_transformer.py lines 225-247). -/
structure IssueCore where
  issue_key : JVal
  project : String
  title : String
  description : String
  status : String
  issue_type : String
  priority : String
  reporter : String
  assignee : String
  created : JVal
  updated : JVal
  resolved : JVal
  labels : List JVal
  components : List JVal
  comments : List CommentRec
  comment_count : Nat
  metadata : Metadata
deriving Repr

/-- DataTransformer.create_derived_tasks (src/src/data_transformer.py lines
132-173), applied as the source does to the transformed record. The source
reads the key entry named key with an empty-string default; the transformed
record stores the key under issue_key, so the default is always taken. -/
def create_derived_tasks (issue_data : IssueCore) : DerivedTasks :=
  let issue_key := ""
  let title := issue_data.title
  let description := issue_data.description
  let status := issue_data.status
  let issue_type := issue_data.issue_type
  let base_text := title ++ "\n\n" ++ description
  let full_text :=
    if !issue_data.comments.isEmpty then
      base_text ++ "\n\nComments:\n" ++
        String.join (issue_data.comments.map (fun c =>
          "- " ++ c.author ++ ": " ++ c.body ++ "\n"))
    else base_text
  { summarization :=
      { instruction := "Summarize the following Jira issue:"
        input := full_text
        output := "Issue " ++ issue_key ++ ": " ++ title ++
          " (Status: " ++ status ++ ", Type: " ++ issue_type ++ ")" }
    classification :=
      { instruction := "Classify the following Jira issue by type and status:"
        input := title ++ "\n\n" ++ description.take 500
        output := "Type: " ++ issue_type ++ ", Status: " ++ status }
    qa_generation :=
      { question := "What is the issue " ++ issue_key ++ " about?"
        context := if full_text.length > 1000 then full_text.take 1000 else full_text
        answer := if description ≠ "" then title ++ " - " ++ description.take 200
                  else title } }

/-- The complete transformed record: the core dictionary plus the
derived_tasks entry added at the end of transform_issue. -/
structure TransformedIssue extends IssueCore where
  derived_tasks : DerivedTasks
deriving Repr

/-- The try-block of DataTransformer.transform_issue (src/src/
data_transformer.py lines 187-252), with every field extraction in the
source's evaluation order. An error models both the early None return on a
falsy fields value and an exception caught by the handler, since both make
transform_issue return None. -/
def transformBody (issue : JVal) (comments_data : Option JVal) :
    Except Unit TransformedIssue := do
  let fields ← pyGetD issue "fields" (.obj [])
  if !fields.truthy then .error ()
  else do
    let issue_key ← pyGetD issue "key" (.str "")
    let summaryVal ← pyGetD fields "summary" (.str "")
    let title ← extract_text_content summaryVal
    let d1 ← pyGetD fields "description" .null
    let descVal ←
      if d1.truthy then pure d1
      else do
        let rf ← pyGetD fields "renderedFields" (.obj [])
        pyGetD rf "description" (.str "")
    let description ← extract_text_content descVal
    let statusVal ← pyGetD fields "status" (.obj [])
    let status ← extract_text_content statusVal
    let issuetypeVal ← pyGetD fields "issuetype" (.obj [])
    let issue_type ← extract_text_content issuetypeVal
    let priorityVal ← pyGetD fields "priority" (.obj [])
    let priority ← extract_text_content priorityVal
    let projectVal ← pyGetD fields "project" (.obj [])
    let project ← extract_text_content projectVal
    let reporterVal ← pyGetD fields "reporter" (.obj [])
    let reporter ← extract_text_content reporterVal
    let assigneeVal ← pyGetD fields "assignee" (.obj [])
    let assignee ← extract_text_content assigneeVal
    let createdVal ← pyGetD fields "created" .null
    let updatedVal ← pyGetD fields "updated" .null
    let resolvedVal ← pyGetD fields "resolutiondate" .null
    let labels ← extract_labels issue
    let components ← extract_components issue
    let comments ← extract_comments issue comments_data
    let core : IssueCore :=
      { issue_key := issue_key
        project := project
        title := title
        description := description
        status := status
        issue_type := issue_type
        priority := priority
        reporter := reporter
        assignee := assignee
        created := format_timestamp createdVal
        updated := format_timestamp updatedVal
        resolved := format_timestamp resolvedVal
        labels := labels
        components := components
        comments := comments
        comment_count := comments.length
        metadata := { raw_issue_key := issue_key, source := "apache-jira" } }
    pure { toIssueCore := core, derived_tasks := create_derived_tasks core }

/-- DataTransformer.transform_issue: the transformed record, or none when
the fields value is falsy or any extraction step raises. -/
def transform_issue (issue : JVal) (comments_data : Option JVal) :
    Option TransformedIssue :=
  match transformBody issue comments_data with
  | .ok t => some t
  | .error _ => none

end DataTransformer

namespace StateManager

/-- A heap of mutable string-list cells, modelling the identity of the
Python list and set objects the StateManager state refers to. Addresses
are allocated in increasing order. -/
structure Heap where
  cells : List (Nat × List String)
  next : Nat
deriving DecidableEq, Repr

/-- Contents of the cell at an address (empty when unallocated). -/
def Heap.get (h : Heap) (a : Nat) : List String :=
  ((h.cells.find? (fun c => c.1 = a)).map (fun c => c.2)).getD []

/-- Overwrite the contents of the cell at an address. -/
def Heap.set (h : Heap) (a : Nat) (v : List String) : Heap :=
  { h with cells := h.cells.map (fun c => if c.1 = a then (a, v) else c) }

/-- Allocate a fresh cell holding the given contents. -/
def Heap.alloc (h : Heap) (v : List String) : Nat × Heap :=
  (h.next, { cells := h.cells ++ [(h.next, v)], next := h.next + 1 })

/-- Every allocated address is below the allocation counter. -/
def Heap.WF (h : Heap) : Prop :=
  ∀ c ∈ h.cells, c.1 < h.next

/-- The per-project progress dictionary written by update_project_progress. -/
structure Progress where
  start_at : Int
  last_issue_key : Option String
deriving DecidableEq, Repr

/-- The in-memory state dictionary of StateManager, in its default shape
(src/src/state_manager.py lines 43-49): a projects map, and a
processed_issues map whose values are references to list objects held in
the heap. The last_updated stamp, written only by save_state from the wall
clock, stays outside the model. -/
structure SMState where
  heap : Heap
  projects : List (String × Progress)
  processed_issues : List (String × Nat)
deriving DecidableEq, Repr

/-- First binding of a key in an association list. -/
def alookup {α : Type} (l : List (String × α)) (k : String) : Option α :=
  (l.find? (fun kv => kv.1 = k)).map (fun kv => kv.2)

/-- Python dict assignment: overwrite an existing binding in place, or
append a new binding in insertion order. -/
def aupdate {α : Type} (l : List (String × α)) (k : String) (v : α) :
    List (String × α) :=
  if (l.find? (fun kv => kv.1 = k)).isSome then
    l.map (fun kv => if kv.1 = k then (k, v) else kv)
  else l ++ [(k, v)]

/-- Python del d[k]: remove the binding. -/
def aerase {α : Type} (l : List (String × α)) (k : String) :
    List (String × α) :=
  l.filter (fun kv => kv.1 ≠ k)

/-- Addresses stored in the processed_issues map point at allocated cells. -/
def SMState.WF (s : SMState) : Prop :=
  s.heap.WF ∧ ∀ pa ∈ s.processed_issues, ∃ c ∈ s.heap.cells, c.1 = pa.2

/-- The list the store reads for a project: the heap cell its
processed_issues entry points at, or the empty list for an unseen project
(the expression self.state.get('processed_issues', {}).get(project, [])). -/
def readProcessedList (s : SMState) (project : String) : List String :=
  match alookup s.processed_issues project with
  | some a => s.heap.get a
  | none => []

/-- The set constructor applied to a list of keys: a copy containing each
distinct element once (first occurrence kept), membership preserved. -/
def setCopyAux (seen : List String) : List String → List String
  | [] => []
  | x :: xs =>
    if x ∈ seen then setCopyAux seen xs
    else x :: setCopyAux (x :: seen) xs

def setCopy (xs : List String) : List String := setCopyAux [] xs

/-- StateManager.get_processed_issues (src/src/state_manager.py lines
62-72): look up the project's list of processed keys and return a freshly
constructed set holding a copy of its elements (the set constructor
deduplicates; a fresh cell models the new set object). The state maps are
untouched. -/
def get_processed_issues (s : SMState) (project : String) : Nat × SMState :=
  let xs := readProcessedList s project
  ((s.heap.alloc (setCopy xs)).1,
   { s with heap := (s.heap.alloc (setCopy xs)).2 })

/-- First statement pair of mark_issue_processed (lines 82-85): create the
project's entry pointing at a fresh empty list object when missing. The
defensive creation of the processed_issues map itself is a no-op in the
modelled state shape. -/
def ensure_project (s : SMState) (project : String) : SMState :=
  match alookup s.processed_issues project with
  | some _ => s
  | none =>
    { s with heap := (s.heap.alloc []).2,
             processed_issues :=
               aupdate s.processed_issues project (s.heap.alloc []).1 }

/-- Final statement of mark_issue_processed (lines 87-88): append the key
to the project's list in place unless already present. -/
def append_if_missing (s : SMState) (project issue_key : String) : SMState :=
  match alookup s.processed_issues project with
  | some a =>
    let xs := s.heap.get a
    if issue_key ∈ xs then s
    else { s with heap := s.heap.set a (xs ++ [issue_key]) }
  | none => s

/-- StateManager.mark_issue_processed (src/src/state_manager.py lines
74-88): ensure the project's list exists, then append the key unless it is
already present. -/
def mark_issue_processed (s : SMState) (project issue_key : String) : SMState :=
  append_if_missing (ensure_project s project) project issue_key

/-- StateManager.get_project_progress (lines 90-100): the project's
progress entry, or an empty default. -/
def get_project_progress (s : SMState) (project : String) : Option Progress :=
  alookup s.projects project

/-- StateManager.update_project_progress (lines 102-121). -/
def update_project_progress (s : SMState) (project : String)
    (start_at : Int) (last_issue_key : Option String) : SMState :=
  let entry : Progress := { start_at := start_at, last_issue_key := last_issue_key }
  { s with projects := aupdate s.projects project entry }

/-- StateManager.reset_project (src/src/state_manager.py lines 123-129):
delete the project's progress entry and its processed_issues entry, each
only when present. -/
def reset_project (s : SMState) (project : String) : SMState :=
  let s1 :=
    if (alookup s.projects project).isSome then
      { s with projects := aerase s.projects project }
    else s
  if (alookup s1.processed_issues project).isSome then
    { s1 with processed_issues := aerase s1.processed_issues project }
  else s1

end StateManager

namespace Main

/-- The command-line arguments of main consulted by the reset/scrape
control flow (src/main.py lines 35-86). -/
structure Args where
  projects : List String
  reset : Bool
  reset_project : Option String
deriving DecidableEq, Repr

/-- A top-level action the CLI performs through the scraper. -/
inductive Action where
  | resetProject (p : String)
  | scrapeAll
deriving DecidableEq, Repr

/-- The sequence of scraper operations main performs (src/main.py lines
106-118): with the reset flag, reset every listed project; when the
reset-project value is truthy (a non-empty string; argparse yields None
when the option is absent and the empty string is falsy), reset that
project and return before scraping; otherwise proceed to scrape_all. -/
def mainActions (args : Args) : List Action :=
  let resets := if args.reset then args.projects.map Action.resetProject else []
  match args.reset_project with
  | some p =>
    if !p.isEmpty then resets ++ [Action.resetProject p]
    else resets ++ [Action.scrapeAll]
  | none => resets ++ [Action.scrapeAll]

end Main

section ClientLemmas

open JiraClient

/-- An attempt outcome that the executor retries with exponential backoff:
a server-error response, a timeout, or a connection failure. -/
def JiraClient.retryableFail : Outcome → Prop
  | .response s _ _ => 500 ≤ s
  | .timeout => True
  | .connectionError => True
  | .otherException => False

theorem makeRequestLoop_all429 (cfg : Config) (responses : Nat → Outcome)
    (ra : Nat → Option ℚ) (b : Nat → Option JVal) :
    ∀ fuel attempt,
      (∀ i, i < fuel → responses (attempt + i) =
        .response 429 (ra (attempt + i)) (b (attempt + i))) →
      makeRequestLoop cfg responses attempt fuel =
        ((List.range fuel).map
          (fun i => (ra (attempt + i)).getD cfg.rate_limit_delay), none) := by
  intro fuel
  induction fuel with
  | zero => intro attempt _; simp [makeRequestLoop]
  | succ n ih =>
    intro attempt h
    have h0 := h 0 (Nat.succ_pos n)
    simp only [Nat.add_zero] at h0
    have hrec := ih (attempt + 1) (fun i hi => by
      have := h (i + 1) (by omega)
      simpa [Nat.add_assoc, Nat.add_comm 1 i] using this)
    have hmap : (List.range (n + 1)).map
          (fun i => (ra (attempt + i)).getD cfg.rate_limit_delay)
        = (ra attempt).getD cfg.rate_limit_delay ::
          (List.range n).map
            (fun i => (ra (attempt + 1 + i)).getD cfg.rate_limit_delay) := by
      rw [List.range_succ_eq_map, List.map_cons, List.map_map]
      simp only [Nat.add_zero]
      refine congrArg _ (List.map_congr_left (fun i _ => ?_))
      simp only [Function.comp_apply]
      rw [show attempt + Nat.succ i = attempt + 1 + i from by omega]
    rw [hmap]
    simp [makeRequestLoop, h0, hrec]

theorem makeRequestLoop_allFail (cfg : Config) (responses : Nat → Outcome) :
    ∀ fuel attempt,
      (∀ i, JiraClient.retryableFail (responses (attempt + i))) →
      (makeRequestLoop cfg responses attempt fuel).2 = none := by
  intro fuel
  induction fuel with
  | zero => intro attempt _; simp [makeRequestLoop]
  | succ n ih =>
    intro attempt h
    have h0 := h 0
    have hrec := ih (attempt + 1) (fun i => by
      have := h (i + 1)
      simpa [Nat.add_assoc, Nat.add_comm 1 i] using this)
    simp only [Nat.add_zero] at h0
    cases hx : responses attempt with
    | response s rff bb =>
      rw [hx] at h0
      have hs : 500 ≤ s := h0
      have h429 : ¬(s = 429) := by omega
      simp only [makeRequestLoop, hx, if_neg h429, if_pos hs]
      split
      · exact hrec
      · rfl
    | timeout =>
      simp only [makeRequestLoop, hx]
      split
      · exact hrec
      · rfl
    | connectionError =>
      simp only [makeRequestLoop, hx]
      split
      · exact hrec
      · rfl
    | otherException =>
      rw [hx] at h0
      exact absurd h0 (by simp [JiraClient.retryableFail])

end ClientLemmas

section C1Section

open JiraClient

/-- A response stream that answers the first five requests with 429
(Retry-After two seconds) and the sixth with a valid 200, as in the spec's
rate-limit scenario with more 429 responses than the default maximum
attempt count. -/
def c1Responses : Nat → Outcome := fun n =>
  if n < 5 then .response 429 (some 2) none
  else .response 200 none (some (.obj [("total", .num 0)]))

/-- C1 counterexample: under the default configuration (max_retries = 5), a
request answered by 429 responses is NOT retried indefinitely until a
non-429 response arrives. The stream c1Responses answers every request
before index 5 with a 429 carrying Retry-After 2 and request 5 with a valid
200, yet the executor performs the five Retry-After sleeps and then returns
no result: the 429 responses consumed the whole attempt budget and the 200
at request 5 is never observed. -/
theorem C1_counterexample_thm :
    (∀ n, n < 5 → c1Responses n = .response 429 (some 2) none) ∧
    c1Responses 5 = .response 200 none (some (.obj [("total", .num 0)])) ∧
    defaultConfig.max_retries = 5 ∧
    makeRequest defaultConfig c1Responses = ([2, 2, 2, 2, 2], none) := by
  refine ⟨?_, rfl, rfl, ?_⟩
  · intro n hn
    interval_cases n <;> rfl
  · rfl

/-- C1 amended: a 429 response makes the executor sleep the Retry-After
duration (falling back to the configured default rate-limit delay) and
retry, but each 429 consumes one iteration of the bounded attempt loop:
when every attempt up to the configured maximum is answered by a 429, the
executor performs the corresponding sleeps and then returns no result
rather than retrying indefinitely. -/
theorem C1_amended_thm (cfg : Config) (responses : Nat → Outcome)
    (ra : Nat → Option ℚ) (b : Nat → Option JVal)
    (h : ∀ n, n < cfg.max_retries →
      responses n = .response 429 (ra n) (b n)) :
    makeRequest cfg responses =
      ((List.range cfg.max_retries).map
        (fun n => (ra n).getD cfg.rate_limit_delay), none) := by
  have := makeRequestLoop_all429 cfg responses ra b cfg.max_retries 0
    (fun i hi => by simpa using h i hi)
  simpa [makeRequest] using this

/-- Witness for C1_amended_thm at the concrete stream c1Responses under the
default configuration. -/
theorem C1_amended_witness :
    (∀ n, n < defaultConfig.max_retries →
      c1Responses n = .response 429 (some 2) none) ∧
    makeRequest defaultConfig c1Responses = ([2, 2, 2, 2, 2], none) := by
  have h : ∀ n, n < defaultConfig.max_retries →
      c1Responses n = Outcome.response 429 (some 2) none := by
    intro n hn
    have h5 : n < 5 := hn
    interval_cases n <;> rfl
  refine ⟨h, ?_⟩
  have := C1_amended_thm defaultConfig c1Responses (fun _ => some 2)
    (fun _ => none) h
  simpa [defaultConfig, List.range_succ] using this

end C1Section

section C3Section

open JiraClient

/-- A response stream with three server errors followed by a valid 200. -/
def c3Responses : Nat → Outcome := fun n =>
  if n < 3 then .response 503 none none
  else .response 200 none (some (.str "ok"))

/-- A response stream answering every request with a server error. -/
def c3AllServerErrors : Nat → Outcome := fun _ => .response 503 none none

/-- C3: with the default maximum attempt count of five, a request whose
first three responses are server errors and whose fourth response is a
valid 200 sleeps exactly three times, with the exponential backoff
durations base, twice base and four times base, then returns the parsed
payload; and a request answered only by server errors, timeouts or
connection failures returns no result (an absent value) once the attempt
budget is exhausted. -/
theorem C3_thm (cfg : Config) :
    (∀ (responses : Nat → Outcome) s0 ra0 b0 s1 ra1 b1 s2 ra2 b2 ra3 body,
      cfg.max_retries = 5 →
      500 ≤ s0 → 500 ≤ s1 → 500 ≤ s2 →
      responses 0 = .response s0 ra0 b0 →
      responses 1 = .response s1 ra1 b1 →
      responses 2 = .response s2 ra2 b2 →
      responses 3 = .response 200 ra3 (some body) →
      makeRequest cfg responses =
        ([cfg.retry_delay, 2 * cfg.retry_delay, 4 * cfg.retry_delay], some body))
  ∧ (∀ responses : Nat → Outcome,
      (∀ n, JiraClient.retryableFail (responses n)) →
      (makeRequest cfg responses).2 = none) := by
  constructor
  · intro responses s0 ra0 b0 s1 ra1 b1 s2 ra2 b2 ra3 body hmax hs0 hs1 hs2 h0 h1 h2 h3
    have n0 : ¬(s0 = 429) := by omega
    have n1 : ¬(s1 = 429) := by omega
    have n2 : ¬(s2 = 429) := by omega
    simp only [makeRequest, hmax, makeRequestLoop, h0, h1, h2, h3,
      if_neg n0, if_neg n1, if_neg n2, if_pos hs0, if_pos hs1, if_pos hs2]
    norm_num [hmax]
    ring_nf
    norm_num [mul_comm]
  · intro responses h
    have := makeRequestLoop_allFail cfg responses cfg.max_retries 0
      (fun i => by simpa using h i)
    simpa [makeRequest] using this

/-- Witness for C3_thm: both conjuncts at concrete streams under the
default configuration. -/
theorem C3_witness :
    makeRequest defaultConfig c3Responses = ([1, 2, 4], some (.str "ok")) ∧
    (makeRequest defaultConfig c3AllServerErrors).2 = none := by
  constructor
  · have := (C3_thm defaultConfig).1 c3Responses 503 none none 503 none none
      503 none none none (.str "ok") rfl (by norm_num) (by norm_num)
      (by norm_num) rfl rfl rfl rfl
    simpa [defaultConfig] using this
  · exact (C3_thm defaultConfig).2 c3AllServerErrors
      (fun n => by simp [c3AllServerErrors, JiraClient.retryableFail])

end C3Section

section C2Section

open Main

/-- The default project list of the CLI with the full-reset flag set and no
single-project reset. -/
def c2Args : Args :=
  { projects := ["SPARK", "HADOOP", "FLINK"], reset := true, reset_project := none }

/-- C2 counterexample: invoking the CLI with the full-reset flag (and no
single-project-reset option) does NOT exit after resetting: the action
sequence still contains the scrape step after the per-project resets. -/
theorem C2_counterexample_thm :
    c2Args.reset = true ∧ c2Args.reset_project = none ∧
    mainActions c2Args =
      [Action.resetProject "SPARK", Action.resetProject "HADOOP",
       Action.resetProject "FLINK", Action.scrapeAll] ∧
    Action.scrapeAll ∈ mainActions c2Args := by
  refine ⟨rfl, rfl, rfl, ?_⟩
  simp [mainActions, c2Args]

/-- C2 amended: with the full-reset flag and no single-project-reset
option, the CLI resets the state of every listed project and then proceeds
to scrape; it exits after resetting without scraping only when the
single-project-reset option is supplied with a non-empty project key — an
absent option (None) and an empty-string value are both falsy, so their
branch is skipped and scraping proceeds. -/
theorem C2_amended_thm (args : Args) :
    (args.reset = true → args.reset_project = none →
      mainActions args =
        args.projects.map Action.resetProject ++ [Action.scrapeAll])
  ∧ (∀ p, args.reset_project = some p → p ≠ "" →
      Action.scrapeAll ∉ mainActions args)
  ∧ (args.reset_project = some "" →
      Action.scrapeAll ∈ mainActions args) := by
  refine ⟨?_, ?_, ?_⟩
  · intro hr hn
    simp [mainActions, hr, hn]
  · intro p hp hne
    have hie : p.isEmpty = false := by
      cases hpe : p.isEmpty
      · rfl
      · exact absurd ((String.isEmpty_iff p).mp hpe) hne
    simp [mainActions, hp, hie]
  · intro hp
    have he : ("" : String).isEmpty = true := by decide
    simp [mainActions, hp, he]

/-- Witness for C2_amended_thm: all three conjuncts at concrete argument
records, including the falsy empty-string option value. -/
theorem C2_amended_witness :
    mainActions c2Args =
      [Action.resetProject "SPARK", Action.resetProject "HADOOP",
       Action.resetProject "FLINK", Action.scrapeAll] ∧
    Action.scrapeAll ∉ mainActions
      { projects := ["SPARK"], reset := false,
        reset_project := some "SPARK" } ∧
    Action.scrapeAll ∈ mainActions
      { projects := ["SPARK"], reset := false, reset_project := some "" } := by
  refine ⟨?_, ?_, ?_⟩
  · have := (C2_amended_thm c2Args).1 rfl rfl
    simpa [c2Args] using this
  · exact (C2_amended_thm _).2.1 "SPARK" rfl (by decide)
  · exact (C2_amended_thm _).2.2 rfl

end C2Section

section ExceptLemmas

theorem exceptBind_ok {α β : Type} (a : α) (f : α → Except Unit β) :
    (Except.ok a : Except Unit α) >>= f = f a := rfl

theorem exceptBind_pure {α β : Type} (a : α) (f : α → Except Unit β) :
    (pure a : Except Unit α) >>= f = f a := rfl

theorem exceptBind_eq_ok {α β : Type} {x : Except Unit α}
    {f : α → Except Unit β} {b : β} :
    x >>= f = .ok b ↔ ∃ a, x = .ok a ∧ f a = .ok b := by
  cases x with
  | ok a => simp [Bind.bind, Except.bind]
  | error e => simp [Bind.bind, Except.bind]

theorem exceptPure_eq_ok {α : Type} {a b : α} :
    (pure a : Except Unit α) = .ok b ↔ a = b := by
  simp [pure, Except.pure]

end ExceptLemmas

section ShapePredicates

open DataTransformer

/-- Shape of a rendered lookup result on which the rendered branch of
extract_text_content cannot raise: absent, or present as a string. -/
def renderedOk : Option JVal → Bool
  | some (.str _) => true
  | some _ => false
  | none => true

/-- Shapes on which extract_text_content cannot raise: everything except a
dict whose rendered sub-field is present and not a string. -/
def textOk : JVal → Bool
  | .obj kvs => renderedOk (JVal.lookup kvs "rendered")
  | _ => true

/-- Shapes on which building one comment record cannot raise: a dict whose
author and body values (defaulting to None) are textOk. -/
def commentOk : JVal → Bool
  | .obj kvs =>
    textOk ((JVal.lookup kvs "author").getD .null) &&
    textOk ((JVal.lookup kvs "body").getD .null)
  | _ => false

/-- A comments collection that the comment loops can consume: a list whose
entries are all commentOk. -/
def commentsListOk : JVal → Bool
  | .arr xs => xs.all commentOk
  | _ => false

/-- Shape of a truthy dedicated comments payload on which the payload loop
cannot raise. -/
def payloadObjOk : JVal → Bool
  | .obj kvs => commentsListOk ((JVal.lookup kvs "comments").getD (.arr []))
  | _ => false

/-- Shapes of a dedicated comments payload on which the payload loop cannot
raise: absent, falsy, or a dict whose comments value (defaulting to the
empty list) is a list of commentOk entries. -/
def commentsPayloadOk : Option JVal → Bool
  | none => true
  | some cd => !cd.truthy || payloadObjOk cd

/-- Shape of the looked-up embedded comments value: absent, or a consumable
comments collection. -/
def embeddedLookupOk : Option JVal → Bool
  | none => true
  | some x => commentsListOk x

/-- Shape of the comment field value on which the embedded loop cannot
raise: a dict whose comments key, when present, holds a consumable
collection; or any falsy value. -/
def embeddedFieldOk : JVal → Bool
  | .obj ckvs => embeddedLookupOk (JVal.lookup ckvs "comments")
  | v => !v.truthy

/-- Shapes of the fields dict on which the embedded-comment loop cannot
raise. -/
def embeddedCommentsOk (fkvs : List (String × JVal)) : Bool :=
  embeddedFieldOk ((JVal.lookup fkvs "comment").getD (.obj []))

/-- Values Python can iterate: lists, strings and dicts. -/
def iterableOk : JVal → Bool
  | .arr _ => true
  | .str _ => true
  | .obj _ => true
  | _ => false

/-- Shapes of the fields dict on which extract_components cannot raise:
the components value (defaulting to the empty list) is iterable. -/
def componentsOk (fkvs : List (String × JVal)) : Bool :=
  iterableOk ((JVal.lookup fkvs "components").getD (.arr []))

/-- Shape of the renderedFields value consulted by the description
or-chain. -/
def renderedFieldsOk : JVal → Bool
  | .obj rkvs => textOk ((JVal.lookup rkvs "description").getD (.str ""))
  | _ => false

/-- Shapes of the fields dict on which the description extraction (the
or-chain over description and the renderedFields sub-dict) cannot raise. -/
def descriptionOk (fkvs : List (String × JVal)) : Bool :=
  let d1 := (JVal.lookup fkvs "description").getD .null
  if d1.truthy then textOk d1
  else renderedFieldsOk ((JVal.lookup fkvs "renderedFields").getD (.obj []))

/-- Conjunction of the shape conditions on the fields dict and the comments
payload under which every extraction step of transform_issue succeeds: the
fields dict is non-empty (truthy) and each consulted value fits the shape
its extractor expects. -/
def fieldsOk (fkvs : List (String × JVal)) (cd : Option JVal) : Bool :=
  !fkvs.isEmpty &&
  textOk ((JVal.lookup fkvs "summary").getD (.str "")) &&
  descriptionOk fkvs &&
  textOk ((JVal.lookup fkvs "status").getD (.obj [])) &&
  textOk ((JVal.lookup fkvs "issuetype").getD (.obj [])) &&
  textOk ((JVal.lookup fkvs "priority").getD (.obj [])) &&
  textOk ((JVal.lookup fkvs "project").getD (.obj [])) &&
  textOk ((JVal.lookup fkvs "reporter").getD (.obj [])) &&
  textOk ((JVal.lookup fkvs "assignee").getD (.obj [])) &&
  componentsOk fkvs &&
  embeddedCommentsOk fkvs &&
  commentsPayloadOk cd

/-- The fields value must itself be a dict. -/
def fieldsValOk : JVal → Option JVal → Bool
  | .obj fkvs, cd => fieldsOk fkvs cd
  | _, _ => false

/-- A raw issue together with an optional comments payload on which every
extraction step of transform_issue is well shaped: the issue is a dict, its
fields value is a dict, and each consulted field fits the shape its
extractor expects. -/
def wellShapedIssue : JVal → Option JVal → Bool
  | .obj ikvs, cd => fieldsValOk ((JVal.lookup ikvs "fields").getD (.obj [])) cd
  | _, _ => false

end ShapePredicates

section ShapeLemmas

open DataTransformer

theorem extract_text_content_ok (v : JVal) (h : textOk v = true) :
    ∃ s, extract_text_content v = .ok s := by
  cases v with
  | null => exact ⟨_, rfl⟩
  | bool b => exact ⟨_, rfl⟩
  | num n => exact ⟨_, rfl⟩
  | str s => exact ⟨_, rfl⟩
  | arr xs => exact ⟨_, rfl⟩
  | obj kvs =>
    simp only [textOk] at h
    simp only [extract_text_content]
    cases hr : JVal.lookup kvs "rendered" with
    | some r =>
      rw [hr] at h
      simp only [renderedOk] at h
      cases r with
      | str s => exact ⟨_, rfl⟩
      | null => simp at h
      | bool b => simp at h
      | num n => simp at h
      | arr xs => simp at h
      | obj o => simp at h
    | none =>
      cases h1 : JVal.lookup kvs "name" with
      | some v1 => exact ⟨_, rfl⟩
      | none =>
        cases h2 : JVal.lookup kvs "displayName" with
        | some v2 => exact ⟨_, rfl⟩
        | none =>
          cases h3 : JVal.lookup kvs "value" with
          | some v3 => exact ⟨_, rfl⟩
          | none => exact ⟨_, rfl⟩

theorem mkCommentRec_ok (c : JVal) (h : commentOk c = true) :
    ∃ r, mkCommentRec c = .ok r := by
  cases c with
  | obj kvs =>
    simp only [commentOk, Bool.and_eq_true] at h
    obtain ⟨sa, hsa⟩ := extract_text_content_ok _ h.1
    obtain ⟨sb, hsb⟩ := extract_text_content_ok _ h.2
    refine ⟨⟨sa, sb,
      format_timestamp ((JVal.lookup kvs "created").getD .null),
      format_timestamp ((JVal.lookup kvs "updated").getD .null)⟩, ?_⟩
    unfold mkCommentRec
    simp only [pyGetD, exceptBind_ok, hsa, hsb]
    rfl
  | null => simp [commentOk] at h
  | bool b => simp [commentOk] at h
  | num n => simp [commentOk] at h
  | str s => simp [commentOk] at h
  | arr xs => simp [commentOk] at h

theorem mapM_mkCommentRec_ok (xs : List JVal) (h : xs.all commentOk = true) :
    ∃ rs, List.mapM' mkCommentRec xs = .ok rs := by
  induction xs with
  | nil => exact ⟨[], rfl⟩
  | cons x xs ih =>
    simp only [List.all_cons, Bool.and_eq_true] at h
    obtain ⟨r, hr⟩ := mkCommentRec_ok x h.1
    obtain ⟨rs, hrs⟩ := ih h.2
    refine ⟨r :: rs, ?_⟩
    simp only [List.mapM', hr, exceptBind_ok, hrs]
    rfl

theorem dedupAppend_ok (xs : List JVal) :
    ∀ acc, xs.all commentOk = true →
      ∃ rs, dedupAppend acc xs = .ok rs := by
  induction xs with
  | nil => intro acc _; exact ⟨acc, rfl⟩
  | cons x xs ih =>
    intro acc h
    simp only [List.all_cons, Bool.and_eq_true] at h
    obtain ⟨hx, hxs⟩ := h
    cases x with
    | obj kvs =>
      simp only [commentOk, Bool.and_eq_true] at hx
      obtain ⟨sb, hsb⟩ := extract_text_content_ok _ hx.2
      obtain ⟨r, hr⟩ := mkCommentRec_ok (.obj kvs) (by
        simp [commentOk, hx.1, hx.2])
      unfold dedupAppend
      simp only [pyGetD, exceptBind_ok, hsb]
      by_cases hex : acc.any (fun c => c.body = sb) = true
      · rw [if_pos hex]
        exact ih acc hxs
      · rw [if_neg hex, hr, exceptBind_ok]
        exact ih (acc ++ [r]) hxs
    | null => simp [commentOk] at hx
    | bool b => simp [commentOk] at hx
    | num n => simp [commentOk] at hx
    | str s => simp [commentOk] at hx
    | arr ys => simp [commentOk] at hx

theorem lookup_none_iff_any_false (kvs : List (String × JVal)) (k : String) :
    JVal.lookup kvs k = none ↔ kvs.any (fun kv => kv.1 = k) = false := by
  induction kvs with
  | nil => simp [JVal.lookup]
  | cons kv rest ih =>
    by_cases h : kv.1 = k
    · simp [JVal.lookup, List.find?_cons, h]
    · rw [show JVal.lookup (kv :: rest) k = JVal.lookup rest k by
        simp [JVal.lookup, List.find?_cons, h]]
      rw [List.any_cons]
      simp only [h, decide_eq_true_eq, Bool.or_eq_false_iff]
      constructor
      · intro hl
        exact ⟨by simp [h], ih.mp hl⟩
      · intro hl
        exact ih.mpr hl.2

theorem commentsFromPayload_ok (cd : Option JVal)
    (hpay : commentsPayloadOk cd = true) :
    ∃ fp, commentsFromPayload cd = .ok fp := by
  cases cd with
  | none => exact ⟨[], rfl⟩
  | some c =>
    by_cases ht : c.truthy = true
    · simp only [commentsPayloadOk, ht, Bool.not_true, Bool.false_or] at hpay
      cases c with
      | obj kvs =>
        simp only [payloadObjOk] at hpay
        cases harr : (JVal.lookup kvs "comments").getD (.arr []) with
        | arr xs =>
          rw [harr] at hpay
          simp only [commentsListOk] at hpay
          obtain ⟨rs, hrs⟩ := mapM_mkCommentRec_ok xs hpay
          refine ⟨rs, ?_⟩
          simp only [commentsFromPayload, ht, if_true, pyGetD, exceptBind_ok,
            harr, pyIter, hrs]
        | null => rw [harr] at hpay; simp [commentsListOk] at hpay
        | bool b => rw [harr] at hpay; simp [commentsListOk] at hpay
        | num n => rw [harr] at hpay; simp [commentsListOk] at hpay
        | str s => rw [harr] at hpay; simp [commentsListOk] at hpay
        | obj o => rw [harr] at hpay; simp [commentsListOk] at hpay
      | null => simp [payloadObjOk] at hpay
      | bool b => simp [payloadObjOk] at hpay
      | num n => simp [payloadObjOk] at hpay
      | str s => simp [payloadObjOk] at hpay
      | arr xs => simp [payloadObjOk] at hpay
    · refine ⟨[], ?_⟩
      simp only [commentsFromPayload, ht]
      rfl

theorem extract_comments_ok (cd : Option JVal)
    (ikvs fkvs : List (String × JVal))
    (hf : (JVal.lookup ikvs "fields").getD (.obj []) = .obj fkvs)
    (hemb : embeddedCommentsOk fkvs = true)
    (hpay : commentsPayloadOk cd = true) :
    ∃ rs, extract_comments (.obj ikvs) cd = .ok rs := by
  obtain ⟨fp, hfp⟩ := commentsFromPayload_ok cd hpay
  unfold extract_comments
  rw [hfp, exceptBind_ok]
  have hfields : pyGetD (.obj ikvs) "fields" (.obj []) = .ok (.obj fkvs) := by
    simp [pyGetD, hf]
  rw [hfields, exceptBind_ok]
  unfold embeddedCommentsOk at hemb
  cases hcf : (JVal.lookup fkvs "comment").getD (.obj []) with
  | obj ckvs =>
    rw [hcf] at hemb
    simp only [embeddedFieldOk] at hemb
    have hcfe : pyGetD (.obj fkvs) "comment" (.obj []) = .ok (.obj ckvs) := by
      simp [pyGetD, hcf]
    rw [hcfe, exceptBind_ok]
    by_cases ht : (JVal.obj ckvs).truthy = true
    · rw [if_pos ht]
      simp only [pyContains, exceptBind_ok]
      cases hlk : JVal.lookup ckvs "comments" with
      | none =>
        have hany : ckvs.any (fun kv => kv.1 = "comments") = false :=
          (lookup_none_iff_any_false ckvs "comments").mp hlk
        rw [hany]
        exact ⟨fp, rfl⟩
      | some x =>
        have hany : ckvs.any (fun kv => kv.1 = "comments") = true := by
          by_contra hc
          rw [(lookup_none_iff_any_false ckvs "comments").mpr
            (Bool.eq_false_iff.mpr hc)] at hlk
          exact Option.noConfusion hlk
        rw [hany]
        rw [hlk] at hemb
        simp only [embeddedLookupOk] at hemb
        cases x with
        | arr xs =>
          simp only [commentsListOk] at hemb
          obtain ⟨rs, hrs⟩ := dedupAppend_ok xs fp hemb
          refine ⟨rs, ?_⟩
          simp only [if_true, pyIndex, hlk, exceptBind_ok, pyIter, hrs]
        | null => simp [commentsListOk] at hemb
        | bool b => simp [commentsListOk] at hemb
        | num n => simp [commentsListOk] at hemb
        | str s => simp [commentsListOk] at hemb
        | obj o => simp [commentsListOk] at hemb
    · rw [if_neg ht]
      rw [exceptBind_pure]
      exact ⟨fp, rfl⟩
  | null =>
    have hcfe : pyGetD (.obj fkvs) "comment" (.obj []) = .ok .null := by
      simp [pyGetD, hcf]
    rw [hcfe, exceptBind_ok]
    rw [if_neg (by simp [JVal.truthy]), exceptBind_pure]
    exact ⟨fp, rfl⟩
  | bool b =>
    rw [hcf] at hemb
    simp only [embeddedFieldOk, JVal.truthy, Bool.not_eq_true'] at hemb
    have hcfe : pyGetD (.obj fkvs) "comment" (.obj []) = .ok (.bool b) := by
      simp [pyGetD, hcf]
    rw [hcfe, exceptBind_ok]
    rw [if_neg (by simp [JVal.truthy, hemb]), exceptBind_pure]
    exact ⟨fp, rfl⟩
  | num n =>
    rw [hcf] at hemb
    simp only [embeddedFieldOk, JVal.truthy, Bool.not_eq_true'] at hemb
    have hcfe : pyGetD (.obj fkvs) "comment" (.obj []) = .ok (.num n) := by
      simp [pyGetD, hcf]
    rw [hcfe, exceptBind_ok]
    rw [if_neg (by simp [JVal.truthy, hemb]), exceptBind_pure]
    exact ⟨fp, rfl⟩
  | str s =>
    rw [hcf] at hemb
    simp only [embeddedFieldOk, JVal.truthy, Bool.not_eq_true'] at hemb
    have hcfe : pyGetD (.obj fkvs) "comment" (.obj []) = .ok (.str s) := by
      simp [pyGetD, hcf]
    rw [hcfe, exceptBind_ok]
    rw [if_neg (by simp [JVal.truthy, hemb]), exceptBind_pure]
    exact ⟨fp, rfl⟩
  | arr xs =>
    rw [hcf] at hemb
    simp only [embeddedFieldOk, JVal.truthy, Bool.not_eq_true'] at hemb
    have hcfe : pyGetD (.obj fkvs) "comment" (.obj []) = .ok (.arr xs) := by
      simp [pyGetD, hcf]
    rw [hcfe, exceptBind_ok]
    rw [if_neg (by simp [JVal.truthy, hemb]), exceptBind_pure]
    exact ⟨fp, rfl⟩

end ShapeLemmas

section TransformLemmas

open DataTransformer

theorem extract_labels_ok (ikvs fkvs : List (String × JVal))
    (hfv : (JVal.lookup ikvs "fields").getD (.obj []) = .obj fkvs) :
    ∃ xs, extract_labels (.obj ikvs) = .ok xs := by
  unfold extract_labels
  have hfields : pyGetD (.obj ikvs) "fields" (.obj []) = .ok (.obj fkvs) := by
    simp [pyGetD, hfv]
  rw [hfields, exceptBind_ok]
  simp only [pyGetD, exceptBind_ok]
  cases (JVal.lookup fkvs "labels").getD (.arr []) with
  | arr xs => exact ⟨xs, rfl⟩
  | null => exact ⟨[], rfl⟩
  | bool b => exact ⟨[], rfl⟩
  | num n => exact ⟨[], rfl⟩
  | str s => exact ⟨[], rfl⟩
  | obj o => exact ⟨[], rfl⟩

theorem extract_components_ok (ikvs fkvs : List (String × JVal))
    (hfv : (JVal.lookup ikvs "fields").getD (.obj []) = .obj fkvs)
    (hcomp : componentsOk fkvs = true) :
    ∃ xs, extract_components (.obj ikvs) = .ok xs := by
  unfold extract_components
  have hfields : pyGetD (.obj ikvs) "fields" (.obj []) = .ok (.obj fkvs) := by
    simp [pyGetD, hfv]
  rw [hfields, exceptBind_ok]
  simp only [pyGetD, exceptBind_ok]
  unfold componentsOk at hcomp
  cases hv : (JVal.lookup fkvs "components").getD (.arr []) with
  | arr xs =>
    simp only [pyIter, exceptBind_ok]
    exact ⟨_, rfl⟩
  | str s =>
    simp only [pyIter, exceptBind_ok]
    exact ⟨_, rfl⟩
  | obj o =>
    simp only [pyIter, exceptBind_ok]
    exact ⟨_, rfl⟩
  | null => rw [hv] at hcomp; simp [iterableOk] at hcomp
  | bool b => rw [hv] at hcomp; simp [iterableOk] at hcomp
  | num n => rw [hv] at hcomp; simp [iterableOk] at hcomp

theorem transformBody_ok_of_wellShaped (issue : JVal) (cd : Option JVal)
    (hws : wellShapedIssue issue cd = true) :
    ∃ t, transformBody issue cd = .ok t := by
  cases issue with
  | obj ikvs =>
    simp only [wellShapedIssue] at hws
    cases hfv : (JVal.lookup ikvs "fields").getD (.obj []) with
    | obj fkvs =>
      rw [hfv] at hws
      simp only [fieldsValOk, fieldsOk, Bool.and_eq_true] at hws
      obtain ⟨⟨⟨⟨⟨⟨⟨⟨⟨⟨⟨hne, hsum⟩, hdesc⟩, hstat⟩, htype⟩, hprio⟩,
        hproj⟩, hrep⟩, hass⟩, hcomp⟩, hembed⟩, hpay⟩ := hws
      have hfields : pyGetD (.obj ikvs) "fields" (.obj []) = .ok (.obj fkvs) := by
        simp [pyGetD, hfv]
      have htr : (JVal.obj fkvs).truthy = true := by
        simpa [JVal.truthy] using hne
      obtain ⟨title, htitle⟩ := extract_text_content_ok _ hsum
      obtain ⟨stat, hstatus⟩ := extract_text_content_ok _ hstat
      obtain ⟨itype, hitype⟩ := extract_text_content_ok _ htype
      obtain ⟨prio, hprior⟩ := extract_text_content_ok _ hprio
      obtain ⟨proj, hproje⟩ := extract_text_content_ok _ hproj
      obtain ⟨rep, hrepo⟩ := extract_text_content_ok _ hrep
      obtain ⟨ass, hasse⟩ := extract_text_content_ok _ hass
      obtain ⟨ls, hls⟩ := extract_labels_ok ikvs fkvs hfv
      obtain ⟨cs, hcs⟩ := extract_components_ok ikvs fkvs hfv hcomp
      obtain ⟨cms, hcms⟩ := extract_comments_ok cd ikvs fkvs hfv hembed hpay
      unfold transformBody
      rw [hfields, exceptBind_ok]
      rw [if_neg (by rw [htr]; simp)]
      simp only [pyGetD, exceptBind_ok, htitle, hls, hcs, hcms,
        hstatus, hitype, hprior, hproje, hrepo, hasse]
      by_cases hd1 : ((JVal.lookup fkvs "description").getD .null).truthy = true
      · rw [if_pos hd1, exceptBind_pure]
        unfold descriptionOk at hdesc
        rw [if_pos hd1] at hdesc
        obtain ⟨ds, hds⟩ := extract_text_content_ok _ hdesc
        rw [hds, exceptBind_ok]
        exact ⟨_, rfl⟩
      · rw [if_neg hd1]
        unfold descriptionOk at hdesc
        rw [if_neg hd1] at hdesc
        cases hrf : (JVal.lookup fkvs "renderedFields").getD (.obj []) with
        | obj rkvs =>
          rw [hrf] at hdesc
          simp only [renderedFieldsOk] at hdesc
          obtain ⟨ds, hds⟩ := extract_text_content_ok _ hdesc
          simp only [pyGetD, exceptBind_ok, hrf, hds]
          exact ⟨_, rfl⟩
        | null => rw [hrf] at hdesc; simp [renderedFieldsOk] at hdesc
        | bool b => rw [hrf] at hdesc; simp [renderedFieldsOk] at hdesc
        | num n => rw [hrf] at hdesc; simp [renderedFieldsOk] at hdesc
        | str s => rw [hrf] at hdesc; simp [renderedFieldsOk] at hdesc
        | arr xs => rw [hrf] at hdesc; simp [renderedFieldsOk] at hdesc
    | null => rw [hfv] at hws; simp [fieldsValOk] at hws
    | bool b => rw [hfv] at hws; simp [fieldsValOk] at hws
    | num n => rw [hfv] at hws; simp [fieldsValOk] at hws
    | str s => rw [hfv] at hws; simp [fieldsValOk] at hws
    | arr xs => rw [hfv] at hws; simp [fieldsValOk] at hws
  | null => simp [wellShapedIssue] at hws
  | bool b => simp [wellShapedIssue] at hws
  | num n => simp [wellShapedIssue] at hws
  | str s => simp [wellShapedIssue] at hws
  | arr xs => simp [wellShapedIssue] at hws

end TransformLemmas

section C4Section

open DataTransformer

/-- A raw issue whose fields mapping is non-empty but whose components
value is a non-iterable number: iterating it raises TypeError inside
extract_components, the handler catches it, and transform_issue returns
None. -/
def c4BadIssue : JVal := .obj [("fields", .obj [("components", .num 5)])]

/-- A raw issue with a non-empty, well-shaped fields mapping. -/
def c4GoodIssue : JVal :=
  .obj [("key", .str "SPARK-1"),
        ("fields", .obj [("summary", .str "A title"),
                         ("status", .obj [("name", .str "Open")])])]

/-- C4 counterexample: a raw issue can have a non-empty fields mapping and
still transform to an absent result. The issue c4BadIssue has the
non-empty fields mapping with the single entry components = 5, yet
transform_issue returns none, because iterating the number raises and the
exception handler returns None. -/
theorem C4_counterexample_thm :
    JVal.lookup [("fields", JVal.obj [("components", JVal.num 5)])] "fields" =
      some (.obj [("components", .num 5)]) ∧
    ([("components", JVal.num 5)] : List (String × JVal)) ≠ [] ∧
    transform_issue c4BadIssue none = none := by
  refine ⟨rfl, by simp, rfl⟩

/-- C4 amended: transform_issue returns an absent result when the issue's
fields value is missing or falsy (in particular absent or the empty
mapping) or when the issue itself is not a dict, and also when a malformed
field value makes an extraction step raise; for every raw issue whose
fields mapping is non-empty and whose consulted field values are well
shaped (wellShapedIssue), it returns a normalized record. -/
theorem C4_amended_thm (issue : JVal) (cd : Option JVal) :
    ((∃ f, pyGetD issue "fields" (.obj []) = .ok f ∧ f.truthy = false) →
      transform_issue issue cd = none)
  ∧ (pyGetD issue "fields" (.obj []) = .error () →
      transform_issue issue cd = none)
  ∧ (wellShapedIssue issue cd = true →
      ∃ t, transform_issue issue cd = some t) := by
  refine ⟨?_, ?_, ?_⟩
  · rintro ⟨f, hf, ht⟩
    unfold transform_issue transformBody
    rw [hf, exceptBind_ok]
    rw [if_pos (by rw [ht]; simp)]
  · intro hf
    unfold transform_issue transformBody
    rw [hf]
    rfl
  · intro hws
    obtain ⟨t, ht⟩ := transformBody_ok_of_wellShaped issue cd hws
    refine ⟨t, ?_⟩
    unfold transform_issue
    rw [ht]

/-- Witness for C4_amended_thm: the well-shaped issue c4GoodIssue
transforms to a record, discharging the well-shapedness hypothesis by
computation. -/
theorem C4_amended_witness :
    wellShapedIssue c4GoodIssue none = true ∧
    (∃ t, transform_issue c4GoodIssue none = some t) := by
  refine ⟨rfl, (C4_amended_thm c4GoodIssue none).2.2 rfl⟩

end C4Section

section C7Section

open DataTransformer

theorem transformBody_comment_count (issue : JVal) (cd : Option JVal)
    (t : TransformedIssue) (h : transformBody issue cd = .ok t) :
    t.comment_count = t.comments.length := by
  unfold transformBody at h
  simp only [exceptBind_eq_ok] at h
  obtain ⟨fields, -, h⟩ := h
  split at h
  · simp at h
  · simp only [exceptBind_eq_ok, exceptPure_eq_ok] at h
    obtain ⟨_, -, _, -, _, -, d1, -, h⟩ := h
    by_cases hd : d1.truthy = true
    · rw [if_pos hd] at h
      simp only [exceptBind_eq_ok, exceptPure_eq_ok] at h
      repeat obtain ⟨_, -, h⟩ := h
      rfl
    · rw [if_neg hd] at h
      simp only [exceptBind_eq_ok, exceptPure_eq_ok] at h
      repeat obtain ⟨_, -, h⟩ := h
      rfl

/-- A dedicated comments payload with one comment. -/
def c7Payload : JVal :=
  .obj [("comments", .arr [.obj [("author", .str "bob"),
                                 ("body", .str "hello")]])]

/-- C7: whenever transform_issue produces a normalized record, the record's
comment_count field equals the length of its comments list. -/
theorem C7_thm (issue : JVal) (cd : Option JVal) (t : TransformedIssue)
    (h : transform_issue issue cd = some t) :
    t.comment_count = t.comments.length := by
  unfold transform_issue at h
  cases hb : transformBody issue cd with
  | ok t2 =>
    rw [hb] at h
    have ht2 : t2 = t := Option.some.inj h
    subst ht2
    exact transformBody_comment_count issue cd t2 hb
  | error e =>
    rw [hb] at h
    cases h

/-- Witness for C7_thm at a concrete issue and payload. -/
theorem C7_witness :
    ∃ t, transform_issue c4GoodIssue (some c7Payload) = some t ∧
      t.comment_count = t.comments.length := by
  have hx : ∃ t, transform_issue c4GoodIssue (some c7Payload) = some t :=
    ⟨_, rfl⟩
  obtain ⟨t, ht⟩ := hx
  exact ⟨t, ht, C7_thm _ _ _ ht⟩

end C7Section

section C5Section

open DataTransformer

/-- A dedicated comments payload holding exactly the given raw comments. -/
def mkPayload (D : List JVal) : JVal := .obj [("comments", .arr D)]

/-- A raw issue whose fields dict embeds exactly the given raw comments. -/
def mkIssueWithComments (E : List JVal) : JVal :=
  .obj [("fields", .obj [("comment", .obj [("comments", .arr E)])])]

theorem mkCommentRec_body_eq (c : JVal) (r : CommentRec) (b : JVal)
    (bt : String)
    (hb : pyGetD c "body" .null = .ok b)
    (hbt : extract_text_content b = .ok bt)
    (hr : mkCommentRec c = .ok r) :
    r.body = bt := by
  unfold mkCommentRec at hr
  simp only [exceptBind_eq_ok, exceptPure_eq_ok] at hr
  obtain ⟨a, ha, sa, hsa, b2, hb2, sb, hsb, cv, hcv, uv, huv, hrec⟩ := hr
  rw [hb] at hb2
  have hbb : b2 = b := (Except.ok.inj hb2).symm
  rw [hbb, hbt] at hsb
  have hsbt : sb = bt := Except.ok.inj hsb.symm
  rw [← hrec]
  exact hsbt

theorem dedupAppend_spec (items : List JVal) :
    ∀ acc M, dedupAppend acc items = .ok M →
      ∃ suffix, M = acc ++ suffix ∧
        ∀ c ∈ suffix, (c.body ∉ acc.map (fun x => x.body)) ∧
          ∃ e ∈ items, mkCommentRec e = .ok c := by
  induction items with
  | nil =>
    intro acc M h
    have hM : acc = M := Except.ok.inj h
    refine ⟨[], by rw [← hM]; simp, ?_⟩
    intro c hc
    simp at hc
  | cons x xs ih =>
    intro acc M h
    unfold dedupAppend at h
    rw [exceptBind_eq_ok] at h
    obtain ⟨b, hb, h⟩ := h
    rw [exceptBind_eq_ok] at h
    obtain ⟨bt, hbt, h⟩ := h
    by_cases hex : acc.any (fun c => c.body = bt) = true
    · rw [if_pos hex] at h
      obtain ⟨suffix, hM, hprop⟩ := ih acc M h
      refine ⟨suffix, hM, ?_⟩
      intro c hc
      obtain ⟨e, he, hee⟩ := (hprop c hc).2
      exact ⟨(hprop c hc).1, e, List.mem_cons_of_mem _ he, hee⟩
    · rw [if_neg hex] at h
      rw [exceptBind_eq_ok] at h
      obtain ⟨r, hr, h⟩ := h
      obtain ⟨suffix, hM, hprop⟩ := ih (acc ++ [r]) M h
      have hrbody : r.body = bt := mkCommentRec_body_eq x r b bt hb hbt hr
      refine ⟨r :: suffix, by rw [hM]; simp, ?_⟩
      intro c hc
      rcases List.mem_cons.mp hc with hceq | hcs
      · subst hceq
        constructor
        · rw [hrbody]
          intro hmem
          obtain ⟨c2, hc2, hc2b⟩ := List.mem_map.mp hmem
          have : acc.any (fun c => c.body = bt) = true :=
            List.any_eq_true.mpr ⟨c2, hc2, by simpa using hc2b⟩
          exact hex this
        · exact ⟨x, List.mem_cons_self _ _, hr⟩
      · have hp := hprop c hcs
        constructor
        · intro hmem
          apply hp.1
          rw [List.map_append]
          exact List.mem_append_left _ hmem
        · obtain ⟨e, he, hee⟩ := hp.2
          exact ⟨e, List.mem_cons_of_mem _ he, hee⟩

theorem extract_comments_canonical (D E : List JVal) (DR : List CommentRec)
    (hD : List.mapM' mkCommentRec D = .ok DR) :
    extract_comments (mkIssueWithComments E) (some (mkPayload D)) =
      dedupAppend DR E := by
  have hstep : extract_comments (mkIssueWithComments E) (some (mkPayload D)) =
      (List.mapM' mkCommentRec D) >>= fun fp => dedupAppend fp E := rfl
  rw [hstep, hD, exceptBind_ok]

/-- C5: for raw comment lists D (dedicated payload) and E (embedded on the
issue), the merged list is the dedicated records followed by exactly those
embedded records whose body is not already present; in particular, when a
body occurs exactly once among the dedicated records and also occurs among
the embedded comments, the merged list contains exactly one entry with that
body and that entry comes from the dedicated payload. -/
theorem C5_thm (D E : List JVal) (DR M : List CommentRec) (b : String)
    (hD : List.mapM' mkCommentRec D = .ok DR)
    (hM : extract_comments (mkIssueWithComments E) (some (mkPayload D)) =
      .ok M) :
    (∃ suffix, M = DR ++ suffix ∧
       ∀ c ∈ suffix, c.body ∉ DR.map (fun x => x.body) ∧
         ∃ e ∈ E, mkCommentRec e = .ok c)
  ∧ (DR.countP (fun c => c.body = b) = 1 →
     (∃ e ∈ E, ∃ r, mkCommentRec e = .ok r ∧ r.body = b) →
       M.countP (fun c => c.body = b) = 1 ∧
       ∀ c ∈ M, c.body = b → c ∈ DR) := by
  rw [extract_comments_canonical D E DR hD] at hM
  obtain ⟨suffix, hMs, hprop⟩ := dedupAppend_spec E DR M hM
  refine ⟨⟨suffix, hMs, hprop⟩, ?_⟩
  intro hcount _
  have hbmem : b ∈ DR.map (fun x => x.body) := by
    have hpos : 0 < DR.countP (fun c => c.body = b) := by omega
    obtain ⟨c, hc, hcb⟩ := List.countP_pos_iff.mp hpos
    exact List.mem_map.mpr ⟨c, hc, by simpa using hcb⟩
  have hsuffix0 : ∀ c ∈ suffix, ¬(c.body = b) := by
    intro c hc hcb
    exact (hprop c hc).1 (hcb ▸ hbmem)
  constructor
  · rw [hMs, List.countP_append]
    have hz : suffix.countP (fun c => c.body = b) = 0 := by
      rw [List.countP_eq_zero]
      intro c hc
      simpa using hsuffix0 c hc
    rw [hcount, hz]
  · intro c hcM hcb
    rw [hMs] at hcM
    rcases List.mem_append.mp hcM with hin | hin
    · exact hin
    · exact absurd hcb (hsuffix0 c hin)

/-- The dedicated payload comments for the witness: one comment with body
dup. -/
def c5D : List JVal :=
  [.obj [("author", .str "alice"), ("body", .str "dup")]]

/-- The embedded comments for the witness: one sharing the body dup, one
with a new body. -/
def c5E : List JVal :=
  [.obj [("author", .str "bob"), ("body", .str "dup")],
   .obj [("author", .str "carol"), ("body", .str "new")]]

/-- The records of the dedicated payload comments. -/
def c5DR : List CommentRec :=
  [{ author := "alice", body := "dup", created := .null, updated := .null }]

/-- The merged result: the dedicated dup entry wins, the embedded new entry
is appended. -/
def c5M : List CommentRec :=
  [{ author := "alice", body := "dup", created := .null, updated := .null },
   { author := "carol", body := "new", created := .null, updated := .null }]

/-- Witness for C5_thm at concrete comment lists sharing the body dup. -/
theorem C5_witness :
    List.mapM' mkCommentRec c5D = .ok c5DR ∧
    extract_comments (mkIssueWithComments c5E) (some (mkPayload c5D)) =
      .ok c5M ∧
    c5DR.countP (fun c => c.body = "dup") = 1 ∧
    c5M.countP (fun c => c.body = "dup") = 1 ∧
    ∀ c ∈ c5M, c.body = "dup" → c ∈ c5DR := by
  have happ := (C5_thm c5D c5E c5DR c5M "dup" rfl rfl).2 rfl
    ⟨.obj [("author", .str "bob"), ("body", .str "dup")], by simp [c5E],
     { author := "bob", body := "dup", created := .null, updated := .null },
     rfl, rfl⟩
  exact ⟨rfl, rfl, rfl, happ.1, happ.2⟩

end C5Section

section C6Section

open DataTransformer

/-- C6 counterexample: the extractor does not stringify a None field. The
claim's catch-all (any value that is neither a string nor a mapping is
stringified) predicts the text None for a null field, but the extractor
returns the empty string. -/
theorem C6_counterexample_thm :
    extract_text_content JVal.null = .ok "" ∧
    pyStrip (JVal.pyStr JVal.null) = "None" ∧
    Except.ok (pyStrip (JVal.pyStr JVal.null)) ≠
      extract_text_content JVal.null := by
  have e1 : pyStrip (JVal.pyStr JVal.null) = "None" := by
    simp only [JVal.pyStr]
    decide
  refine ⟨rfl, e1, ?_⟩
  intro h
  rw [e1] at h
  have h2 : "None" = "" :=
    Except.ok.inj (h.trans (rfl : extract_text_content JVal.null = .ok ""))
  exact absurd h2 (by decide)

/-- C6 amended: the flexible-shape text extractor maps a null field to the
empty string; a string is returned stripped; a mapping prefers a rendered
sub-field that is a string (tags removed by the single non-nested
tag-removal pass, whitespace collapsed, then stripped), then a name
sub-field, then a displayName sub-field, then a value sub-field, each
stringified, then the concatenation of all string-valued entries, stripped;
any other value is stringified and stripped. -/
theorem C6_amended_thm :
    (extract_text_content JVal.null = .ok "")
  ∧ (∀ s, extract_text_content (.str s) = .ok (pyStrip s))
  ∧ (∀ kvs text, JVal.lookup kvs "rendered" = some (.str text) →
      extract_text_content (.obj kvs) =
        .ok (pyStrip (String.mk (collapseWs (stripTags text.toList)))))
  ∧ (∀ kvs v, JVal.lookup kvs "rendered" = none →
      JVal.lookup kvs "name" = some v →
      extract_text_content (.obj kvs) = .ok v.pyStr)
  ∧ (∀ kvs v, JVal.lookup kvs "rendered" = none →
      JVal.lookup kvs "name" = none →
      JVal.lookup kvs "displayName" = some v →
      extract_text_content (.obj kvs) = .ok v.pyStr)
  ∧ (∀ kvs v, JVal.lookup kvs "rendered" = none →
      JVal.lookup kvs "name" = none →
      JVal.lookup kvs "displayName" = none →
      JVal.lookup kvs "value" = some v →
      extract_text_content (.obj kvs) = .ok v.pyStr)
  ∧ (∀ kvs, JVal.lookup kvs "rendered" = none →
      JVal.lookup kvs "name" = none →
      JVal.lookup kvs "displayName" = none →
      JVal.lookup kvs "value" = none →
      extract_text_content (.obj kvs) =
        .ok (pyStrip (String.intercalate " " (kvs.filterMap (fun kv =>
          match kv.2 with
          | .str s => some s
          | _ => none)))))
  ∧ (∀ n, extract_text_content (.num n) = .ok (pyStrip (JVal.num n).pyStr))
  ∧ (∀ b, extract_text_content (.bool b) = .ok (pyStrip (JVal.bool b).pyStr))
  ∧ (∀ xs, extract_text_content (.arr xs) =
      .ok (pyStrip (JVal.arr xs).pyStr)) := by
  refine ⟨rfl, fun s => rfl, ?_, ?_, ?_, ?_, ?_, fun n => rfl, fun b => rfl,
    fun xs => rfl⟩
  · intro kvs text hr
    simp only [extract_text_content, hr]
  · intro kvs v hr hn
    simp only [extract_text_content, hr, hn]
  · intro kvs v hr hn hd
    simp only [extract_text_content, hr, hn, hd]
  · intro kvs v hr hn hd hv
    simp only [extract_text_content, hr, hn, hd, hv]
  · intro kvs hr hn hd hv
    simp only [extract_text_content, hr, hn, hd, hv]

/-- Witness for C6_amended_thm: the rendered and the name cases at concrete
mappings, discharging the lookup hypotheses by computation. -/
theorem C6_amended_witness :
    JVal.lookup [("rendered", .str "<p>Hi  there</p>")] "rendered" =
      some (.str "<p>Hi  there</p>") ∧
    extract_text_content (.obj [("rendered", .str "<p>Hi  there</p>")]) =
      .ok "Hi there" ∧
    extract_text_content (.obj [("name", .str "Open")]) = .ok "Open" := by
  refine ⟨rfl, ?_, ?_⟩
  · have := (C6_amended_thm).2.2.1 [("rendered", .str "<p>Hi  there</p>")]
      "<p>Hi  there</p>" rfl
    rw [this]
    exact congrArg Except.ok (by decide)
  · have := (C6_amended_thm).2.2.2.1 [("name", .str "Open")] (.str "Open")
      rfl rfl
    rw [this]
    simp [JVal.pyStr]

end C6Section

section StateLemmas

open StateManager

theorem find_append_none {α : Type} (l1 l2 : List α) (p : α → Bool)
    (h : l1.find? p = none) : (l1 ++ l2).find? p = l2.find? p := by
  induction l1 with
  | nil => simp
  | cons x xs ih =>
    cases hp : p x with
    | true =>
      rw [List.find?_cons_of_pos _ hp] at h
      exact absurd h (by simp)
    | false =>
      rw [List.find?_cons_of_neg _ (by simp [hp])] at h
      rw [List.cons_append, List.find?_cons_of_neg _ (by simp [hp])]
      exact ih h

theorem find_append_some {α : Type} (l1 l2 : List α) (p : α → Bool) (c : α)
    (h : l1.find? p = some c) : (l1 ++ l2).find? p = some c := by
  induction l1 with
  | nil => simp at h
  | cons x xs ih =>
    cases hp : p x with
    | true =>
      rw [List.find?_cons_of_pos _ hp] at h
      rw [List.cons_append, List.find?_cons_of_pos _ hp]
      exact h
    | false =>
      rw [List.find?_cons_of_neg _ (by simp [hp])] at h
      rw [List.cons_append, List.find?_cons_of_neg _ (by simp [hp])]
      exact ih h

theorem find_map_update {α β : Type} [DecidableEq β]
    (cells : List (β × α)) (a : β) (v : α)
    (hc : ∃ c ∈ cells, c.1 = a) :
    (cells.map (fun c => if c.1 = a then (a, v) else c)).find?
      (fun c => c.1 = a) = some (a, v) := by
  induction cells with
  | nil => simp at hc
  | cons x xs ih =>
    by_cases hx : x.1 = a
    · simp only [List.map_cons, if_pos hx]
      rw [List.find?_cons_of_pos _ (by simp)]
    · simp only [List.map_cons, if_neg hx]
      rw [List.find?_cons_of_neg _ (by simp [hx])]
      apply ih
      rcases hc with ⟨c, hcm, hca⟩
      rcases List.mem_cons.mp hcm with heq | hmem
      · exact absurd (heq ▸ hca) hx
      · exact ⟨c, hmem, hca⟩

theorem find_map_update_ne {α β : Type} [DecidableEq β]
    (cells : List (β × α)) (a b : β) (v : α) (hne : b ≠ a) :
    (cells.map (fun c => if c.1 = a then (a, v) else c)).find?
      (fun c => c.1 = b) = cells.find? (fun c => c.1 = b) := by
  induction cells with
  | nil => rfl
  | cons x xs ih =>
    by_cases hx : x.1 = a
    · simp only [List.map_cons, if_pos hx]
      rw [List.find?_cons_of_neg _ (by
        simp only [decide_eq_true_eq]
        exact fun hab => hne hab.symm)]
      rw [List.find?_cons_of_neg _ (by
        simp only [decide_eq_true_eq]
        rw [hx]
        exact fun hab => hne hab.symm)]
      exact ih
    · simp only [List.map_cons, if_neg hx]
      by_cases hxb : x.1 = b
      · rw [List.find?_cons_of_pos _ (by simp [hxb]),
          List.find?_cons_of_pos _ (by simp [hxb])]
      · rw [List.find?_cons_of_neg _ (by simp [hxb]),
          List.find?_cons_of_neg _ (by simp [hxb])]
        exact ih

theorem heap_find_next_none (h : Heap) (hWF : h.WF) :
    h.cells.find? (fun c => c.1 = h.next) = none := by
  rw [List.find?_eq_none]
  intro c hc
  simp only [decide_eq_true_eq]
  exact Nat.ne_of_lt (hWF c hc)

theorem heap_get_alloc_self (h : Heap) (v : List String) (hWF : h.WF) :
    ((h.alloc v).2).get (h.alloc v).1 = v := by
  unfold Heap.alloc Heap.get
  simp only
  rw [find_append_none _ _ _ (heap_find_next_none h hWF)]
  simp [List.find?]

theorem heap_get_alloc_ne (h : Heap) (v : List String) (b : Nat)
    (hb : b ≠ h.next) : ((h.alloc v).2).get b = h.get b := by
  unfold Heap.alloc Heap.get
  simp only
  cases hf : h.cells.find? (fun c => c.1 = b) with
  | some c => rw [find_append_some _ _ _ _ hf]
  | none =>
    rw [find_append_none _ _ _ hf]
    rw [List.find?_cons_of_neg _ (by
      simp only [decide_eq_true_eq]
      exact Ne.symm hb)]
    rfl

theorem heap_get_set_self (h : Heap) (a : Nat) (v : List String)
    (hc : ∃ c ∈ h.cells, c.1 = a) : (h.set a v).get a = v := by
  unfold Heap.set Heap.get
  simp only
  rw [find_map_update _ _ _ hc]
  rfl

theorem heap_get_set_ne (h : Heap) (a b : Nat) (v : List String)
    (hne : b ≠ a) : (h.set a v).get b = h.get b := by
  unfold Heap.set Heap.get
  simp only
  rw [find_map_update_ne _ _ _ _ hne]

theorem heap_WF_set (h : Heap) (a : Nat) (v : List String) (hWF : h.WF) :
    (h.set a v).WF := by
  intro c hc
  unfold Heap.set at hc
  simp only at hc
  obtain ⟨c0, hc0, heq⟩ := List.mem_map.mp hc
  by_cases h0 : c0.1 = a
  · rw [if_pos h0] at heq
    rw [← heq]
    simpa [← h0] using hWF c0 hc0
  · rw [if_neg h0] at heq
    rw [← heq]
    exact hWF c0 hc0

theorem heap_WF_alloc (h : Heap) (v : List String) (hWF : h.WF) :
    ((h.alloc v).2).WF := by
  intro c hc
  unfold Heap.alloc at hc
  simp only [List.mem_append] at hc
  rcases hc with hc | hc
  · exact Nat.lt_succ_of_lt (hWF c hc)
  · simp only [List.mem_singleton] at hc
    rw [hc]
    exact Nat.lt_succ_self _

theorem alookup_aupdate_self {α : Type} (l : List (String × α))
    (k : String) (v : α) : alookup (aupdate l k v) k = some v := by
  unfold aupdate alookup
  by_cases hf : (l.find? (fun kv => kv.1 = k)).isSome = true
  · rw [if_pos hf]
    rw [find_map_update]
    · rfl
    · obtain ⟨c, hc⟩ := Option.isSome_iff_exists.mp hf
      exact ⟨c, List.mem_of_find?_eq_some hc, by
        have := List.find?_some hc
        simpa using this⟩
  · rw [if_neg hf]
    rw [find_append_none _ _ _ (Option.not_isSome_iff_eq_none.mp hf)]
    simp [List.find?]

theorem alookup_aupdate_ne {α : Type} (l : List (String × α))
    (k k2 : String) (v : α) (hne : k2 ≠ k) :
    alookup (aupdate l k v) k2 = alookup l k2 := by
  unfold aupdate alookup
  by_cases hf : (l.find? (fun kv => kv.1 = k)).isSome = true
  · rw [if_pos hf, find_map_update_ne _ _ _ _ hne]
  · rw [if_neg hf]
    cases hf2 : l.find? (fun kv => kv.1 = k2) with
    | some c => rw [find_append_some _ _ _ _ hf2]
    | none =>
      rw [find_append_none _ _ _ hf2]
      rw [List.find?_cons_of_neg _ (by
        simp only [decide_eq_true_eq]
        exact Ne.symm hne)]
      rfl

theorem alookup_aerase_ne {α : Type} (l : List (String × α))
    (p q : String) (hne : q ≠ p) :
    alookup (aerase l p) q = alookup l q := by
  unfold aerase alookup
  induction l with
  | nil => rfl
  | cons kv rest ih =>
    by_cases hp : kv.1 = p
    · rw [List.filter_cons_of_neg (by simp [hp])]
      rw [List.find?_cons_of_neg _ (by
        simp only [decide_eq_true_eq]
        rw [hp]
        exact fun hab => hne hab.symm)]
      exact ih
    · rw [List.filter_cons_of_pos (by simp [hp])]
      by_cases hq : kv.1 = q
      · rw [List.find?_cons_of_pos _ (by simp [hq]),
          List.find?_cons_of_pos _ (by simp [hq])]
      · rw [List.find?_cons_of_neg _ (by simp [hq]),
          List.find?_cons_of_neg _ (by simp [hq])]
        exact ih

end StateLemmas

section C8Section

open StateManager

theorem ensure_project_some (s : SMState) (project : String) (a : Nat)
    (h : alookup s.processed_issues project = some a) :
    ensure_project s project = s := by
  unfold ensure_project
  rw [h]

theorem alookup_cell_exists (s : SMState) (project : String) (a : Nat)
    (hWF : s.WF) (hl : alookup s.processed_issues project = some a) :
    ∃ c ∈ s.heap.cells, c.1 = a := by
  unfold alookup at hl
  obtain ⟨kv, hkv, hkv2⟩ := Option.map_eq_some'.mp hl
  have hmem := List.mem_of_find?_eq_some hkv
  have hc := hWF.2 kv hmem
  rw [hkv2] at hc
  exact hc

theorem mark_state (s : SMState) (project issue_key : String) (hWF : s.WF) :
    ∃ a, alookup (mark_issue_processed s project issue_key).processed_issues
        project = some a ∧
      issue_key ∈ (mark_issue_processed s project issue_key).heap.get a := by
  unfold mark_issue_processed
  cases hl : alookup s.processed_issues project with
  | some a0 =>
    rw [ensure_project_some _ _ _ hl]
    unfold append_if_missing
    rw [hl]
    dsimp only
    by_cases hk : issue_key ∈ s.heap.get a0
    · rw [if_pos hk]
      exact ⟨a0, hl, hk⟩
    · rw [if_neg hk]
      refine ⟨a0, hl, ?_⟩
      have hc := alookup_cell_exists s project a0 hWF hl
      rw [heap_get_set_self _ _ _ hc]
      exact List.mem_append_right _ (List.mem_singleton_self _)
  | none =>
    unfold ensure_project
    rw [hl]
    unfold append_if_missing
    rw [alookup_aupdate_self]
    dsimp only
    have hget0 : ((s.heap.alloc []).2).get (s.heap.alloc []).1 = [] :=
      heap_get_alloc_self s.heap [] hWF.1
    rw [hget0]
    rw [if_neg (by simp)]
    refine ⟨(s.heap.alloc []).1, alookup_aupdate_self _ _ _, ?_⟩
    have hc : ∃ c ∈ ((s.heap.alloc []).2).cells, c.1 = (s.heap.alloc []).1 := by
      refine ⟨(s.heap.next, []), ?_, rfl⟩
      unfold Heap.alloc
      simp
    rw [heap_get_set_self _ _ _ hc]
    exact List.mem_append_right _ (List.mem_singleton_self _)

/-- C8: marking the same issue key twice for the same project leaves the
whole store state, in particular the processed set of that project,
exactly as after marking it once: the second call is a no-op because the
key is already present. -/
theorem C8_thm (s : SMState) (project issue_key : String) (hWF : s.WF) :
    mark_issue_processed (mark_issue_processed s project issue_key)
      project issue_key = mark_issue_processed s project issue_key := by
  obtain ⟨a, ha, hk⟩ := mark_state s project issue_key hWF
  have hm : mark_issue_processed (mark_issue_processed s project issue_key)
      project issue_key =
      append_if_missing
        (ensure_project (mark_issue_processed s project issue_key) project)
        project issue_key := rfl
  rw [hm, ensure_project_some _ _ _ ha]
  unfold append_if_missing
  rw [ha]
  dsimp only
  rw [if_pos hk]

/-- The empty store state. -/
def smEmpty : SMState :=
  { heap := { cells := [], next := 0 }, projects := [], processed_issues := [] }

theorem smEmpty_WF : smEmpty.WF := by
  constructor
  · intro c hc
    simp [smEmpty] at hc
  · intro pa hpa
    simp [smEmpty] at hpa

/-- Witness for C8_thm on the empty store. -/
theorem C8_witness :
    smEmpty.WF ∧
    mark_issue_processed (mark_issue_processed smEmpty "SPARK" "SPARK-1")
      "SPARK" "SPARK-1" =
      mark_issue_processed smEmpty "SPARK" "SPARK-1" :=
  ⟨smEmpty_WF, C8_thm smEmpty "SPARK" "SPARK-1" smEmpty_WF⟩

end C8Section

section C9Section

open StateManager

theorem readProcessedList_untouched (s : SMState) (h2 : Heap)
    (hWF : s.WF)
    (hsame : ∀ addr, addr < s.heap.next → h2.get addr = s.heap.get addr)
    (q : String) :
    readProcessedList { s with heap := h2 } q = readProcessedList s q := by
  unfold readProcessedList
  dsimp only
  cases hq : alookup s.processed_issues q with
  | none => rfl
  | some addr =>
    obtain ⟨c, hcm, hca⟩ := alookup_cell_exists s q addr hWF hq
    have hlt : addr < s.heap.next := by
      rw [← hca]
      exact hWF.1 c hcm
    exact hsame addr hlt

theorem get_processed_contents (s : SMState) (p : String)
    (hWF1 : s.heap.WF) (a3 : Nat) (s3 : SMState)
    (h3 : get_processed_issues s p = (a3, s3)) :
    s3.heap.get a3 = setCopy (readProcessedList s p) := by
  have hpair : get_processed_issues s p =
      ((s.heap.alloc (setCopy (readProcessedList s p))).1,
       { s with heap := (s.heap.alloc (setCopy (readProcessedList s p))).2 }) :=
    rfl
  rw [hpair] at h3
  injection h3 with ha hs
  subst ha
  subst hs
  exact heap_get_alloc_self _ _ hWF1

/-- C9: the set returned by get_processed_issues is a detached copy:
overwriting the returned cell with arbitrary contents leaves the store's
maps untouched and leaves the list the store reads for every project
unchanged, and a subsequent read of the same project returns a set with
the same contents as the read performed before the mutation. -/
theorem C9_thm (s : SMState) (p : String) (hWF : s.WF) (v2 : List String)
    (a : Nat) (s2 : SMState)
    (hget : get_processed_issues s p = (a, s2)) :
    (({ s2 with heap := s2.heap.set a v2 }).projects = s.projects ∧
     ({ s2 with heap := s2.heap.set a v2 }).processed_issues =
       s.processed_issues)
  ∧ (∀ q, readProcessedList { s2 with heap := s2.heap.set a v2 } q =
       readProcessedList s q)
  ∧ (∀ a3 s3,
      get_processed_issues { s2 with heap := s2.heap.set a v2 } p =
        (a3, s3) →
      s3.heap.get a3 = setCopy (readProcessedList s p)) := by
  have hpair : get_processed_issues s p =
      ((s.heap.alloc (setCopy (readProcessedList s p))).1,
       { s with heap := (s.heap.alloc (setCopy (readProcessedList s p))).2 }) :=
    rfl
  rw [hpair] at hget
  injection hget with ha hs2
  subst ha
  subst hs2
  have hsame : ∀ addr, addr < s.heap.next →
      (((s.heap.alloc (setCopy (readProcessedList s p))).2).set
        (s.heap.alloc (setCopy (readProcessedList s p))).1 v2).get addr =
      s.heap.get addr := by
    intro addr hlt
    exact (heap_get_set_ne _ _ _ _
        (show addr ≠ (s.heap.alloc (setCopy (readProcessedList s p))).1 from
          Nat.ne_of_lt hlt)).trans
      (heap_get_alloc_ne _ _ _ (Nat.ne_of_lt hlt))
  have hread := readProcessedList_untouched s _ hWF hsame
  refine ⟨⟨rfl, rfl⟩, hread, ?_⟩
  intro a3 s3 h3
  have hWFmut : (((s.heap.alloc (setCopy (readProcessedList s p))).2).set
      (s.heap.alloc (setCopy (readProcessedList s p))).1 v2).WF :=
    heap_WF_set _ _ _ (heap_WF_alloc _ _ hWF.1)
  rw [get_processed_contents _ p hWFmut a3 s3 h3]
  rw [hread p]

/-- A store with one processed issue recorded for one project. -/
def sm1 : SMState :=
  { heap := { cells := [(0, ["SPARK-1"])], next := 1 },
    projects := [],
    processed_issues := [("SPARK", 0)] }

theorem sm1_WF : sm1.WF := by
  refine ⟨?_, ?_⟩
  · intro c hc
    have hce := List.mem_singleton.mp hc
    subst hce
    decide
  · intro pa hpa
    have hpe := List.mem_singleton.mp hpa
    subst hpe
    exact ⟨(0, ["SPARK-1"]), List.mem_singleton_self _, rfl⟩

/-- Witness for C9_thm: mutating the returned set of a concrete store does
not change what the store reads for the project. -/
theorem C9_witness :
    sm1.WF ∧
    get_processed_issues sm1 "SPARK" =
      (1, { sm1 with
            heap := { cells := [(0, ["SPARK-1"]), (1, ["SPARK-1"])],
                      next := 2 } }) ∧
    readProcessedList
      { (get_processed_issues sm1 "SPARK").2 with
        heap := ((get_processed_issues sm1 "SPARK").2).heap.set
          (get_processed_issues sm1 "SPARK").1 ["EVIL"] } "SPARK" =
      readProcessedList sm1 "SPARK" := by
  refine ⟨sm1_WF, rfl, ?_⟩
  exact (C9_thm sm1 "SPARK" sm1_WF ["EVIL"]
    (get_processed_issues sm1 "SPARK").1
    (get_processed_issues sm1 "SPARK").2 rfl).2.1 "SPARK"

end C9Section

section C10Section

open StateManager

/-- C10: resetting project p leaves the progress entry and the processed
list of any other project q unchanged, and resetting a project with no
stored entries leaves the whole state unchanged (reset is a total
function, so it cannot fail). -/
theorem C10_thm (s : SMState) (p q : String) :
    (p ≠ q →
      get_project_progress (reset_project s p) q =
        get_project_progress s q ∧
      readProcessedList (reset_project s p) q = readProcessedList s q)
  ∧ ((alookup s.projects p).isSome = false →
     (alookup s.processed_issues p).isSome = false →
      reset_project s p = s) := by
  constructor
  · intro hne
    constructor
    · unfold get_project_progress reset_project
      by_cases h1 : (alookup s.projects p).isSome = true
      · rw [if_pos h1]
        dsimp only
        by_cases h2 : (alookup s.processed_issues p).isSome = true
        · rw [if_pos h2]
          dsimp only
          exact alookup_aerase_ne _ _ _ (Ne.symm hne)
        · rw [if_neg h2]
          dsimp only
          exact alookup_aerase_ne _ _ _ (Ne.symm hne)
      · rw [if_neg h1]
        by_cases h2 : (alookup s.processed_issues p).isSome = true
        · rw [if_pos h2]
        · rw [if_neg h2]
    · unfold readProcessedList reset_project
      by_cases h1 : (alookup s.projects p).isSome = true
      · rw [if_pos h1]
        dsimp only
        by_cases h2 : (alookup s.processed_issues p).isSome = true
        · rw [if_pos h2]
          dsimp only
          rw [alookup_aerase_ne _ _ _ (Ne.symm hne)]
        · rw [if_neg h2]
      · rw [if_neg h1]
        by_cases h2 : (alookup s.processed_issues p).isSome = true
        · rw [if_pos h2]
          dsimp only
          rw [alookup_aerase_ne _ _ _ (Ne.symm hne)]
        · rw [if_neg h2]
  · intro ha hb
    simp [reset_project, ha, hb]

/-- A store with a progress entry and a processed issue for one project. -/
def sm2 : SMState :=
  { heap := { cells := [(0, ["SPARK-1"])], next := 1 },
    projects :=
      [("SPARK", { start_at := 3, last_issue_key := some "SPARK-1" })],
    processed_issues := [("SPARK", 0)] }

/-- Witness for C10_thm: resetting a different (and unseen) project leaves
the stored project untouched and the whole state unchanged. -/
theorem C10_witness :
    ("OTHER" : String) ≠ "SPARK" ∧
    (alookup sm2.projects "OTHER").isSome = false ∧
    get_project_progress (reset_project sm2 "OTHER") "SPARK" =
      get_project_progress sm2 "SPARK" ∧
    readProcessedList (reset_project sm2 "OTHER") "SPARK" =
      readProcessedList sm2 "SPARK" ∧
    reset_project sm2 "OTHER" = sm2 := by
  have hne : ("OTHER" : String) ≠ "SPARK" := by decide
  have h1 := (C10_thm sm2 "OTHER" "SPARK").1 hne
  have h2 := (C10_thm sm2 "OTHER" "SPARK").2 rfl rfl
  exact ⟨hne, rfl, h1.1, h1.2, h2⟩

end C10Section
